import Mathlib

/-!
Shallow embedding of the NL-API batching / checkpoint / flattening code in
`EDA NoteBooks/call_nlp_api.py` and `EDA NoteBooks/nlp_api.py` of the
msba-capstone-2020 repository, together with theorems settling the spec
claims about it.

Modelling conventions:

* A Python dict is an association list with pairwise-distinct keys kept in
  insertion order; `d[k] = v` overwrites in place when `k` is present and
  appends otherwise, `d.update(d2)` folds that assignment over `d2`.
* A computation that can raise an uncaught Python exception is `Option`
  valued, with `none` standing for the escaped exception.
* The external annotation function `np_api_fn` is modelled as a pure
  function from record id and document text to a result value; the worker
  pool writes `shared_results[complaint_id] = result` for every batch
  element, in batch order.  Per-record API failures are inside that value
  (the `"language error"` sentinel), exactly as in `get_sentiment` /
  `get_entities`.
* A worker-pool-level failure (the `except Exception` around the dispatch
  block) is modelled by a `pool : Nat → PoolOutcome` oracle giving the
  fate of the n-th dispatch of the run; see `PoolOutcome` for the three
  modes (success; `starmap` raising after part of the batch was written;
  `Pool()`/`Manager()`/`manager.dict()` raising before `batch_results` was
  rebound, which leaves the previous dispatch's still-live dict in that
  variable).  The drain dispatch at the bottom of `call_nl_api` is not
  inside any `try`, so a failure there escapes the function.
* The dataframe rows of `df.iterrows()` are modelled as the list of
  `(complaint_id, consumer_complaint_narrative)` pairs in iteration order.
-/

/-- JSON values as decoded by `json.load` / produced by `MessageToJson`,
restricted to the shapes this code manipulates. -/
inductive NLJson where
  | str : String → NLJson
  | num : Rat → NLJson
  | arr : List NLJson → NLJson
  | obj : List (String × NLJson) → NLJson

mutual

def NLJson.decEq : (a b : NLJson) → Decidable (a = b)
  | .str x, .str y =>
    if h : x = y then .isTrue (by rw [h]) else .isFalse (fun hc => h (NLJson.str.inj hc))
  | .num x, .num y =>
    if h : x = y then .isTrue (by rw [h]) else .isFalse (fun hc => h (NLJson.num.inj hc))
  | .arr xs, .arr ys =>
    match NLJson.decEqList xs ys with
    | .isTrue h => .isTrue (by rw [h])
    | .isFalse h => .isFalse (fun hc => h (NLJson.arr.inj hc))
  | .obj xs, .obj ys =>
    match NLJson.decEqObj xs ys with
    | .isTrue h => .isTrue (by rw [h])
    | .isFalse h => .isFalse (fun hc => h (NLJson.obj.inj hc))
  | .str _, .num _ => .isFalse (fun hc => NLJson.noConfusion hc)
  | .str _, .arr _ => .isFalse (fun hc => NLJson.noConfusion hc)
  | .str _, .obj _ => .isFalse (fun hc => NLJson.noConfusion hc)
  | .num _, .str _ => .isFalse (fun hc => NLJson.noConfusion hc)
  | .num _, .arr _ => .isFalse (fun hc => NLJson.noConfusion hc)
  | .num _, .obj _ => .isFalse (fun hc => NLJson.noConfusion hc)
  | .arr _, .str _ => .isFalse (fun hc => NLJson.noConfusion hc)
  | .arr _, .num _ => .isFalse (fun hc => NLJson.noConfusion hc)
  | .arr _, .obj _ => .isFalse (fun hc => NLJson.noConfusion hc)
  | .obj _, .str _ => .isFalse (fun hc => NLJson.noConfusion hc)
  | .obj _, .num _ => .isFalse (fun hc => NLJson.noConfusion hc)
  | .obj _, .arr _ => .isFalse (fun hc => NLJson.noConfusion hc)

def NLJson.decEqList : (xs ys : List NLJson) → Decidable (xs = ys)
  | [], [] => .isTrue rfl
  | [], _ :: _ => .isFalse (fun hc => List.noConfusion hc)
  | _ :: _, [] => .isFalse (fun hc => List.noConfusion hc)
  | x :: xs, y :: ys =>
    match NLJson.decEq x y with
    | .isFalse h => .isFalse (fun hc => h (List.cons.inj hc).1)
    | .isTrue h1 =>
      match NLJson.decEqList xs ys with
      | .isTrue h2 => .isTrue (by rw [h1, h2])
      | .isFalse h => .isFalse (fun hc => h (List.cons.inj hc).2)

def NLJson.decEqObj : (xs ys : List (String × NLJson)) → Decidable (xs = ys)
  | [], [] => .isTrue rfl
  | [], _ :: _ => .isFalse (fun hc => List.noConfusion hc)
  | _ :: _, [] => .isFalse (fun hc => List.noConfusion hc)
  | (k, v) :: xs, (l, w) :: ys =>
    if hk : k = l then
      match NLJson.decEq v w with
      | .isFalse h =>
        .isFalse (fun hc => h (congrArg Prod.snd (List.cons.inj hc).1))
      | .isTrue h1 =>
        match NLJson.decEqObj xs ys with
        | .isTrue h2 => .isTrue (by rw [hk, h1, h2])
        | .isFalse h => .isFalse (fun hc => h (List.cons.inj hc).2)
    else .isFalse (fun hc => hk (congrArg Prod.fst (List.cons.inj hc).1))

end

instance : DecidableEq NLJson := NLJson.decEq

/-- Python `d[k] = v` on a dict: overwrite in place when the key is
present, append otherwise (insertion order preserved). -/
def dinsert {β : Type} (d : List (String × β)) (k : String) (v : β) :
    List (String × β) :=
  match d with
  | [] => [(k, v)]
  | p :: rest => if p.1 = k then (k, v) :: rest else p :: dinsert rest k v

/-- Python `d.update(d2)`. -/
def dupdate {β : Type} (d d2 : List (String × β)) : List (String × β) :=
  d2.foldl (fun acc p => dinsert acc p.1 p.2) d

/-- A checkpoint shard: one JSON dict mapping complaint id to result. -/
abbrev Shard (β : Type) := List (String × β)

/-- Python `complaint_id in res` on a dict. -/
def shardContains {β : Type} (s : Shard β) (i : String) : Bool :=
  (s.lookup i).isSome

/-- `any([complaint_id in res for res in stored_results])`. -/
def anyContains {β : Type} (stored : List (Shard β)) (i : String) : Bool :=
  stored.any (fun s => shardContains s i)

/-- The worker pool running one batch: every worker executes
`shared_results[complaint_id] = np_api_fn result`, in batch order. -/
def runBatch {β : Type} (apiFn : String → String → β)
    (batch : List (String × String)) : Shard β :=
  batch.foldl (fun acc p => dinsert acc p.1 (apiFn p.1 p.2)) []

/-- `stored_results[-1].update(batch_results)` preceded by the
`stored_results[-1]` read; `none` is the `IndexError` on an empty list. -/
def updateLast {β : Type} (stored : List (Shard β)) (bres : Shard β) :
    Option (List (Shard β)) :=
  match stored.getLast? with
  | none => none
  | some last => some (stored.dropLast ++ [dupdate last bres])

/-- Lines 153-155 of `call_nlp_api.py` (and 133-135 of `nlp_api.py`):

```
if len(stored_results[-1]) + len(batch_results) > max_result_size:
    stored_results.append(\x7b\x7d)
stored_results[-1].update(batch_results)
```
-/
def mergeStep {β : Type} (stored : List (Shard β)) (bres : Shard β)
    (m : Nat) : Option (List (Shard β)) :=
  match stored.getLast? with
  | none => none
  | some last =>
    if last.length + bres.length > m then updateLast (stored ++ [[]]) bres
    else updateLast stored bres

/-- The fate of one worker-pool dispatch block
(`pool = multiprocessing.Pool()`; `manager = multiprocessing.Manager()`;
`batch_results = manager.dict()`; `pool.starmap(...)`; `close`; `join`):

* `ok` — the block completes; the dict holds the whole batch's results.
* `failedAfter keep` — `starmap` (or `close`/`join`) raises after
  `batch_results` was rebound to this batch's dict; the workers whose
  record ids satisfy `keep` had already written, so the dict holds that
  part of the batch (which part is scheduler-dependent, hence the oracle;
  entry order is modelled as batch order).
* `failedBefore` — `Pool()`, `Manager()` or `manager.dict()` raises,
  before `batch_results` was rebound: the name still refers to the
  previous dispatch's dict, which is alive (no `with` block ever shuts a
  manager down in `call_nlp_api.py`) and still holds that previous
  batch's results — or is undefined when no dispatch has run yet.

Inside the loop the whole block sits in `try ... except Exception`, so
both failure modes are caught there; the drain block at the bottom has no
`try`, so any failure there escapes. -/
inductive PoolOutcome where
  | ok : PoolOutcome
  | failedAfter : (String → Bool) → PoolOutcome
  | failedBefore : PoolOutcome

namespace CallNlpApi

/-- The mutable locals of the `for complaint_id, row in df.iterrows()`
loop of `call_nl_api` in `call_nlp_api.py`: the pending batch, the shard
list, the number of dispatches made so far (the index into the `pool`
oracle), and `prev` — what the Python name `batch_results` refers to
between dispatches: the still-live dict of the most recent dispatch that
rebound it, `none` while no dispatch has run yet. -/
structure LoopState (β : Type) where
  batch : List (String × String)
  stored : List (Shard β)
  k : Nat
  prev : Option (Shard β)
deriving DecidableEq

/-- The scan/accumulate/dispatch/merge loop of `call_nl_api`
(`call_nlp_api.py` lines 129-171).  Rate limiting (`time.sleep`) and the
checkpoint-file write have no bearing on the returned value and are not
modelled.  `none` is an uncaught exception: the `IndexError` of
`stored_results[-1]` on an empty list at line 153, or the `NameError`
there when a caught `failedBefore` hits the very first dispatch and
`batch_results` was never bound.  In the caught failure modes the merge
at lines 153-155 still runs, on the partially filled dict
(`failedAfter`) or on the previous dispatch's dict (`failedBefore`). -/
def batchLoop {β : Type} (apiFn : String → String → β) (bs m : Nat)
    (pool : Nat → PoolOutcome) :
    List (String × String) → LoopState β → Option (LoopState β)
  | [], st => some st
  | (i, doc) :: rest, st =>
    if anyContains st.stored i then batchLoop apiFn bs m pool rest st
    else
      let batch := st.batch ++ [(i, doc)]
      if batch.length < bs then
        batchLoop apiFn bs m pool rest { st with batch := batch }
      else
        match pool st.k with
        | .ok =>
          let bres := runBatch apiFn batch
          match mergeStep st.stored bres m with
          | none => none
          | some stored =>
            batchLoop apiFn bs m pool rest ⟨[], stored, st.k + 1, some bres⟩
        | .failedAfter keep =>
          let bres := runBatch apiFn (batch.filter (fun p => keep p.1))
          match mergeStep st.stored bres m with
          | none => none
          | some stored =>
            batchLoop apiFn bs m pool rest ⟨[], stored, st.k + 1, some bres⟩
        | .failedBefore =>
          match st.prev with
          | none => none
          | some stale =>
            match mergeStep st.stored stale m with
            | none => none
            | some stored =>
              batchLoop apiFn bs m pool rest ⟨[], stored, st.k + 1, some stale⟩

/-- `call_nl_api` of `call_nlp_api.py`: the batching loop followed by the
final drain dispatch of the leftover partial batch (lines 173-188).  The
drain block is not inside a `try`, so any dispatch failure there is an
escaped exception, and `stored_results[-1]` on an empty list is an
`IndexError`. -/
def call_nl_api {β : Type} (df : List (String × String))
    (stored : List (Shard β)) (apiFn : String → String → β) (bs m : Nat)
    (pool : Nat → PoolOutcome) : Option (List (Shard β)) :=
  match batchLoop apiFn bs m pool df ⟨[], stored, 0, none⟩ with
  | none => none
  | some st =>
    match pool st.k with
    | .ok => updateLast st.stored (runBatch apiFn st.batch)
    | .failedAfter _ => none
    | .failedBefore => none

end CallNlpApi

namespace NlpApi

/-- The `for complaint_id, row in df.iterrows()` loop of `call_nl_api` in
`nlp_api.py` (lines 109-118).  In this variant the dispatch block is not
inside the loop body: the loop only skips seen ids and appends to `batch`,
and the trailing `if len(batch) < batch_size: continue` is the last
statement of the body, so both of its outcomes advance to the next row. -/
def scanLoop {β : Type} (stored : List (Shard β)) (bs : Nat) :
    List (String × String) → List (String × String) → List (String × String)
  | [], batch => batch
  | (i, doc) :: rest, batch =>
    if anyContains stored i then scanLoop stored bs rest batch
    else
      let batch := batch ++ [(i, doc)]
      if batch.length < bs then scanLoop stored bs rest batch
      else scanLoop stored bs rest batch

/-- `call_nl_api` of `nlp_api.py`: the accumulate-only scan loop runs, and
the single dispatch of the whole accumulated batch runs inside
`try` + `with multiprocessing.Manager() as manager:` (lines 124-132).
Exiting that `with` block shuts the manager process down, so line 133's
`len(batch_results)` is a method call on a dead `DictProxy`, outside the
`try`, and raises an uncaught exception (when the dispatch block itself
raised before `batch_results = manager.dict()` ran, line 133 raises a
`NameError` instead, and on an empty store `stored_results[-1]` raises
`IndexError` first).  Every path raises before any merge happens, so this
variant never returns, whatever its arguments. -/
def call_nl_api {β : Type} (df : List (String × String))
    (stored : List (Shard β)) (apiFn : String → String → β) (bs m : Nat)
    (pool : Nat → PoolOutcome) : Option (List (Shard β)) :=
  let _batch := scanLoop stored bs df []
  match stored.getLast? with
  | none => none
  | some _ => none

end NlpApi

/-!  ## The checkpoint loader

`load_checkpoint` is identical in both modules (`call_nlp_api.py` lines
33-56, `nlp_api.py` lines 34-58).  The filesystem behind the single
checkpoint directory is modelled as `none` when the path does not exist
and `some entries` when it is a directory with the given
(file name, parsed JSON shard) entries; every entry is a regular file and
parsing is already done (a malformed file would be a fatal `json.load`
error, which no claim exercises).  The function returns the directory
state after the call together with the loaded shard list, `none` being an
escaped exception. -/

/-- Code-point lexicographic order on character lists, the order Python
`sorted` uses on strings. -/
def charsLe : List Char → List Char → Bool
  | [], _ => true
  | _ :: _, [] => false
  | c :: cs, d :: ds =>
    if c.val.toNat = d.val.toNat then charsLe cs ds
    else c.val.toNat < d.val.toNat

/-- Lexicographic order on file names. -/
def nameLe (a b : String) : Bool := charsLe a.data b.data

/-- Stable insertion used to model Python `sorted(os.listdir(path))`. -/
def insertByName {β : Type} (xs : List (String × β)) (p : String × β) :
    List (String × β) :=
  match xs with
  | [] => [p]
  | q :: rest => if nameLe q.1 p.1 then q :: insertByName rest p else p :: q :: rest

/-- Python `sorted` on directory entries, by file name, stable. -/
def sortByName {β : Type} (xs : List (String × β)) : List (String × β) :=
  xs.foldl insertByName []

/-- `load_checkpoint(checkpoints_path)`.  When the path is absent, or
exists with a non-empty listing, the source behaves as documented; when
the path exists with an empty listing, the `os.makedirs(checkpoints_path)`
call (no `exist_ok`) raises `FileExistsError`, modelled as `none`. -/
def load_checkpoint {β : Type} (dir : Option (List (String × Shard β))) :
    Option (Option (List (String × Shard β)) × List (Shard β)) :=
  match dir with
  | none => some (some [], [[]])
  | some [] => none
  | some files => some (some files, (sortByName files).map Prod.snd)

/-!  ## The result flatteners

`add_sentiment_data` (`call_nlp_api.py` lines 190-211, identical in
`nlp_api.py`) and `add_entity_data` (lines 213-260).  Python dict/str/list
indexing and membership are partial; `none` is a raised `KeyError` or
`TypeError`. -/

/-- Python `container[k]` with a string key `k`: dict lookup (`KeyError`
when missing), `TypeError` on anything else. -/
def jIndex (j : NLJson) (k : String) : Option NLJson :=
  match j with
  | .obj kvs => kvs.lookup k
  | _ => none

/-- Python `k in container` for a string `k`: key membership on a dict,
element equality on a list, substring test on a string, `TypeError` on a
number. -/
def jHas (j : NLJson) (k : String) : Option Bool :=
  match j with
  | .obj kvs => some (kvs.lookup k).isSome
  | .arr xs => some (xs.any (fun x => match x with | .str s => s = k | _ => false))
  | .str s => some (if k = "" then true else (s.splitOn k).length ≥ 2)
  | .num _ => none

/-- Python `for x in container`: list elements, dict keys, string
characters, `TypeError` on a number. -/
def iterElems (j : NLJson) : Option (List NLJson) :=
  match j with
  | .arr xs => some xs
  | .obj kvs => some (kvs.map (fun p => NLJson.str p.1))
  | .str s => some (s.toList.map (fun c => NLJson.str (String.singleton c)))
  | .num _ => none

/-- The sentinel `get_sentiment` / `get_entities` store on an API-call
failure. -/
def langError : NLJson := NLJson.str "language error"

/-- The body of the `add_sentiment_data` row loop for one stored result:
the `(score, magnitude)` appended for it, `none` when the body raises. -/
def sentimentRow (result : NLJson) : Option (NLJson × NLJson) :=
  if result = langError then some (NLJson.num 0, NLJson.num 0)
  else do
    let ds ← jIndex result "documentSentiment"
    let hs ← jHas ds "score"
    let score ← if hs then jIndex ds "score" else pure (NLJson.num 0)
    let hm ← jHas ds "magnitude"
    let mag ← if hm then jIndex ds "magnitude" else pure (NLJson.num 0)
    pure (score, mag)

/-- The `add_sentiment_data` row loop over the flattened shard entries:
the `index`, `sentiment_scores`, `sentiment_magnitudes` lists. -/
def sentimentRows :
    List (String × NLJson) → Option (List String × List NLJson × List NLJson)
  | [] => some ([], [], [])
  | (i, r) :: rest => do
    let (s, m) ← sentimentRow r
    let (ix, ss, ms) ← sentimentRows rest
    pure (i :: ix, s :: ss, m :: ms)

/-- The body of the inner `for entity in result["entities"]` loop of
`add_entity_data` for one entity: `(name, type, score, magnitude)`. -/
def entityItem (e : NLJson) : Option (NLJson × NLJson × NLJson × NLJson) := do
  let s ← jIndex e "sentiment"
  let hs ← jHas s "score"
  let score ← if hs then jIndex s "score" else pure (NLJson.num 0)
  let hm ← jHas s "magnitude"
  let mag ← if hm then jIndex s "magnitude" else pure (NLJson.num 0)
  let n ← jIndex e "name"
  let t ← jIndex e "type"
  pure (n, t, score, mag)

/-- The inner entity loop of `add_entity_data` over the entity list. -/
def entityFold :
    List NLJson → Option (List NLJson × List NLJson × List NLJson × List NLJson)
  | [] => some ([], [], [], [])
  | e :: es => do
    let (n, t, s, m) ← entityItem e
    let (ns, ts, ss, ms) ← entityFold es
    pure (n :: ns, t :: ts, s :: ss, m :: ms)

/-- The body of the `add_entity_data` row loop for one stored result: the
four per-record lists appended for it. -/
def entityRow (result : NLJson) :
    Option (List NLJson × List NLJson × List NLJson × List NLJson) :=
  if result = langError then some ([], [], [], [])
  else do
    let he ← jHas result "entities"
    if he then
      let ents ← jIndex result "entities"
      let xs ← iterElems ents
      entityFold xs
    else pure ([], [], [], [])

/-- The `add_entity_data` row loop over the flattened shard entries. -/
def entityRows :
    List (String × NLJson) →
      Option (List String × List (List NLJson) × List (List NLJson) ×
        List (List NLJson) × List (List NLJson))
  | [] => some ([], [], [], [], [])
  | (i, r) :: rest => do
    let (ns, ts, ss, ms) ← entityRow r
    let (ix, nss, tss, sss, mss) ← entityRows rest
    pure (i :: ix, ns :: nss, ts :: tss, ss :: sss, ms :: mss)

/-- One value of a dataframe column: a JSON scalar written by
`add_sentiment_data`, a Python list written by `add_entity_data`, or the
`NaN` that pandas fills in for an index label missing from the assigned
series. -/
inductive Cell where
  | js : NLJson → Cell
  | jsList : List NLJson → Cell
  | na : Cell
deriving DecidableEq

/-- A pandas dataframe, as the code uses it: a row index of complaint ids
and named columns aligned positionally with that index. -/
structure DF where
  index : List String
  cols : List (String × List Cell)
deriving DecidableEq

/-- Align a labelled series to a non-empty row index, as the assignment
`df[col] = pd.Series(values, index)` does on a frame with rows:

* series labels identical to the frame's index: positional copy of the
  values;
* otherwise, repeated series labels make the reindex raise
  `ValueError: cannot reindex from a duplicate axis` (`none`);
* otherwise each frame row takes the value the series holds at its label,
  `NaN` when the label is absent. -/
def alignSeries (index : List String) (series : List (String × Cell)) :
    Option (List Cell) :=
  if series.map Prod.fst = index then some (series.map Prod.snd)
  else if (series.map Prod.fst).Nodup then
    some (index.map (fun i => ((series.lookup i)).getD Cell.na))
  else none

/-- `df[name] = pd.Series(values, labels)` where `series = labels.zip values`
(the two lists are built in lockstep by the flatteners, so the `Series`
constructor's equal-length requirement always holds): mutates `df` in
place and evaluates to the mutated frame, `none` for a raised exception.
On a frame with no rows pandas adopts the series' index as the frame's
index and reindexes (`NaN`-fills) the existing columns; otherwise the
series is aligned to the frame's index (`alignSeries`).  Column
replacement keeps the column position and appends new columns, the same
in-place assignment `dinsert` models on dicts. -/
def setCol (df : DF) (name : String) (series : List (String × Cell)) :
    Option DF :=
  if df.index = [] then
    some ⟨series.map Prod.fst,
      dinsert (df.cols.map (fun p => (p.1, series.map (fun _ => Cell.na))))
        name (series.map Prod.snd)⟩
  else
    match alignSeries df.index series with
    | none => none
    | some col => some ⟨df.index, dinsert df.cols name col⟩

/-- `add_sentiment_data(df, stored_results)`.  The returned frame is the
state of the argument frame after the call (pandas column assignment
mutates in place, and the source returns the same object); `none` is a
raised exception. -/
def add_sentiment_data (df : DF) (stored : List (Shard NLJson)) : Option DF :=
  match sentimentRows stored.flatten with
  | none => none
  | some (ix, ss, ms) => do
    let df1 ← setCol df "sentiment_score" (ix.zip (ss.map Cell.js))
    setCol df1 "sentiment_magnitude" (ix.zip (ms.map Cell.js))

/-- `add_entity_data(df, stored_results)`, conventions as in
`add_sentiment_data`. -/
def add_entity_data (df : DF) (stored : List (Shard NLJson)) : Option DF :=
  match entityRows stored.flatten with
  | none => none
  | some (ix, ns, ts, ss, ms) => do
    let df1 ← setCol df "entities" (ix.zip (ns.map Cell.jsList))
    let df2 ← setCol df1 "entity_types" (ix.zip (ts.map Cell.jsList))
    let df3 ← setCol df2 "entity_sentiment_scores" (ix.zip (ss.map Cell.jsList))
    setCol df3 "entity_sentiment_magnitudes" (ix.zip (ms.map Cell.jsList))

/-- Whether an optional JSON value is present and an object. -/
def isObjSome : Option NLJson → Bool
  | some (NLJson.obj _) => true
  | _ => false

/-- Sufficient well-formedness for `add_sentiment_data` not to raise on a
stored result: the error sentinel, or a result carrying a
`documentSentiment` object. -/
def sentimentResultOK (r : NLJson) : Bool :=
  decide (r = langError) || isObjSome (jIndex r "documentSentiment")

/-- Sufficient well-formedness for the inner entity loop of
`add_entity_data` not to raise on one entity: a `sentiment` object and
`name` and `type` fields. -/
def entityItemOK (e : NLJson) : Bool :=
  isObjSome (jIndex e "sentiment") &&
    (jIndex e "name").isSome && (jIndex e "type").isSome

/-- Whether an absent-or-list `entities` field holds only well-formed
entities. -/
def entitiesOKOpt : Option NLJson → Bool
  | none => true
  | some (NLJson.arr xs) => xs.all entityItemOK
  | some _ => false

/-- Sufficient well-formedness for `add_entity_data` not to raise on a
stored result: the error sentinel, or an object whose `entities` field,
when present, is a list of well-formed entities. -/
def entityResultOK (r : NLJson) : Bool :=
  decide (r = langError) ||
    (isObjSome (some r) && entitiesOKOpt (jIndex r "entities"))

/-!  ## Store predicates and lemmas -/

/-- Dict representation invariant: pairwise-distinct keys. -/
def keysNodup {β : Type} (s : Shard β) : Prop := (s.map Prod.fst).Nodup

/-- Two shards hold no common record id. -/
def shardDisj {β : Type} (s t : Shard β) : Prop :=
  ∀ p ∈ s, shardContains t p.1 = false

/-- Each record id appears in at most one shard of the store. -/
def storeSep {β : Type} (stored : List (Shard β)) : Prop :=
  stored.Pairwise shardDisj

/-- The stored result for an id: the value in the first shard holding it. -/
def storeLookup {β : Type} (stored : List (Shard β)) (i : String) : Option β :=
  stored.findSome? (fun s => s.lookup i)

/-- Every shard within the given maximum entry count. -/
def shardsBounded {β : Type} (stored : List (Shard β)) (m : Nat) : Prop :=
  ∀ s ∈ stored, s.length ≤ m

instance {β : Type} (s : Shard β) : Decidable (keysNodup s) := by
  unfold keysNodup; infer_instance

instance {β : Type} (s t : Shard β) : Decidable (shardDisj s t) := by
  unfold shardDisj; infer_instance

instance {β : Type} (stored : List (Shard β)) : Decidable (storeSep stored) := by
  unfold storeSep; infer_instance

instance {β : Type} (stored : List (Shard β)) (m : Nat) :
    Decidable (shardsBounded stored m) := by
  unfold shardsBounded; infer_instance

/-!  ## Dict lemmas -/

theorem lookup_dinsert_self {β : Type} (d : Shard β) (k : String) (v : β) :
    (dinsert d k v).lookup k = some v := by
  induction d with
  | nil => simp [dinsert, List.lookup]
  | cons p rest ih =>
    by_cases h : p.1 = k
    · simp [dinsert, h, List.lookup]
    · simp only [dinsert, if_neg h, List.lookup]
      have : (k == p.1) = false := by
        simp only [beq_eq_false_iff_ne, ne_eq]
        exact fun hc => h hc.symm
      simp [this, ih]

theorem lookup_dinsert_ne {β : Type} (d : Shard β) (k : String) (v : β)
    (i : String) (h : i ≠ k) : (dinsert d k v).lookup i = d.lookup i := by
  induction d with
  | nil =>
    have hne : (i == k) = false := by simpa using h
    simp [dinsert, List.lookup, hne]
  | cons p rest ih =>
    by_cases hp : p.1 = k
    · subst hp
      simp only [dinsert, if_pos rfl, List.lookup]
      have : (i == p.1) = false := by simpa using h
      simp [this]
    · simp only [dinsert, if_neg hp, List.lookup]
      by_cases hip : i = p.1
      · simp [hip]
      · have : (i == p.1) = false := by simpa using hip
        simp [this, ih]

theorem contains_dinsert {β : Type} (d : Shard β) (k : String) (v : β)
    (i : String) :
    shardContains (dinsert d k v) i = (i == k || shardContains d i) := by
  by_cases h : i = k
  · subst h
    simp [shardContains, lookup_dinsert_self]
  · simp [shardContains, lookup_dinsert_ne d k v i h, h]

theorem length_dinsert_le {β : Type} (d : Shard β) (k : String) (v : β) :
    (dinsert d k v).length ≤ d.length + 1 := by
  induction d with
  | nil => simp [dinsert]
  | cons p rest ih =>
    by_cases h : p.1 = k
    · simp [dinsert, h]
    · simp only [dinsert, if_neg h, List.length_cons]
      omega

theorem mem_keys_iff_contains {β : Type} (s : Shard β) (i : String) :
    i ∈ s.map Prod.fst ↔ shardContains s i = true := by
  induction s with
  | nil => simp [shardContains, List.lookup]
  | cons p rest ih =>
    simp only [List.map_cons, List.mem_cons, shardContains, List.lookup]
    by_cases h : i = p.1
    · simp [h]
    · have : (i == p.1) = false := by simpa using h
      simp [h, this, ih, shardContains]

theorem keysNodup_dinsert {β : Type} (d : Shard β) (k : String) (v : β)
    (h : keysNodup d) : keysNodup (dinsert d k v) := by
  induction d with
  | nil => simp [dinsert, keysNodup]
  | cons p rest ih =>
    simp only [keysNodup, List.map_cons, List.nodup_cons] at h
    by_cases hp : p.1 = k
    · simp only [dinsert, if_pos hp, keysNodup, List.map_cons, List.nodup_cons]
      exact ⟨hp ▸ h.1, h.2⟩
    · simp only [dinsert, if_neg hp, keysNodup, List.map_cons, List.nodup_cons]
      constructor
      · intro hc
        rw [mem_keys_iff_contains, contains_dinsert] at hc
        rcases Bool.or_eq_true_iff.1 hc with hc | hc
        · exact hp (by simpa using hc)
        · exact h.1 ((mem_keys_iff_contains rest p.1).2 hc)
      · exact ih h.2

theorem dupdate_nil {β : Type} (d : Shard β) : dupdate d [] = d := rfl

theorem dupdate_cons {β : Type} (d : Shard β) (p : String × β) (b : Shard β) :
    dupdate d (p :: b) = dupdate (dinsert d p.1 p.2) b := rfl

theorem lookup_dupdate_not_contains {β : Type} (b d : Shard β) (i : String)
    (h : shardContains b i = false) :
    (dupdate d b).lookup i = d.lookup i := by
  induction b generalizing d with
  | nil => rfl
  | cons p rest ih =>
    simp only [shardContains, List.lookup] at h
    by_cases hip : i = p.1
    · simp [hip] at h
    · have hne : (i == p.1) = false := by simpa using hip
      rw [hne] at h
      simp only [Bool.false_eq_true] at h
      rw [dupdate_cons, ih _ h, lookup_dinsert_ne _ _ _ _ hip]

theorem contains_dupdate {β : Type} (b d : Shard β) (i : String) :
    shardContains (dupdate d b) i = (shardContains d i || shardContains b i) := by
  induction b generalizing d with
  | nil => simp [dupdate_nil, shardContains, List.lookup]
  | cons p rest ih =>
    rw [dupdate_cons, ih]
    rw [contains_dinsert]
    simp only [shardContains, List.lookup]
    by_cases hip : i = p.1
    · simp [hip]
    · have hne : (i == p.1) = false := by simpa using hip
      simp [hne]

theorem keysNodup_dupdate {β : Type} (b d : Shard β) (h : keysNodup d) :
    keysNodup (dupdate d b) := by
  induction b generalizing d with
  | nil => exact h
  | cons p rest ih => exact dupdate_cons d p rest ▸ ih _ (keysNodup_dinsert _ _ _ h)

theorem length_dupdate_le {β : Type} (b d : Shard β) :
    (dupdate d b).length ≤ d.length + b.length := by
  induction b generalizing d with
  | nil => simp [dupdate_nil]
  | cons p rest ih =>
    rw [dupdate_cons]
    calc (dupdate (dinsert d p.1 p.2) rest).length
        ≤ (dinsert d p.1 p.2).length + rest.length := ih _
      _ ≤ (d.length + 1) + rest.length := by
          have := length_dinsert_le d p.1 p.2
          omega
      _ = d.length + (p :: rest).length := by simp; omega

theorem dinsert_not_contains {β : Type} (d : Shard β) (k : String) (v : β)
    (h : shardContains d k = false) : dinsert d k v = d ++ [(k, v)] := by
  induction d with
  | nil => rfl
  | cons p rest ih =>
    simp only [shardContains, List.lookup] at h
    by_cases hp : k = p.1
    · simp [hp] at h
    · have hne : (k == p.1) = false := by simpa using hp
      rw [hne] at h
      simp only [Bool.false_eq_true] at h
      have hp2 : ¬(p.1 = k) := fun hc => hp hc.symm
      simp [dinsert, hp2, ih h, shardContains]

theorem lookup_append_singleton_ne {β : Type} (d : Shard β) (k : String)
    (v : β) (i : String) (h : i ≠ k) :
    (d ++ [(k, v)]).lookup i = d.lookup i := by
  induction d with
  | nil =>
    have hne : (i == k) = false := by simpa using h
    simp [List.lookup, hne]
  | cons r ds ihd =>
    simp only [List.cons_append, List.lookup]
    by_cases hqr : i = r.1
    · simp [hqr]
    · have hne : (i == r.1) = false := by simpa using hqr
      simp [hne, ihd]

theorem contains_foldl_dinsert {β : Type} (f : String → String → β)
    (b : List (String × String)) (acc : Shard β) (i : String) :
    shardContains (b.foldl (fun acc p => dinsert acc p.1 (f p.1 p.2)) acc) i
      = (shardContains acc i || b.any (fun p => i == p.1)) := by
  induction b generalizing acc with
  | nil => simp
  | cons p rest ih =>
    simp only [List.foldl_cons, List.any_cons]
    rw [ih, contains_dinsert]
    cases h1 : shardContains acc i <;> cases h2 : (i == p.1) <;> simp

theorem keysNodup_foldl_dinsert {β : Type} (f : String → String → β)
    (b : List (String × String)) (acc : Shard β) (h : keysNodup acc) :
    keysNodup (b.foldl (fun acc p => dinsert acc p.1 (f p.1 p.2)) acc) := by
  induction b generalizing acc with
  | nil => exact h
  | cons p rest ih => exact ih _ (keysNodup_dinsert _ _ _ h)

theorem length_foldl_dinsert_le {β : Type} (f : String → String → β)
    (b : List (String × String)) (acc : Shard β) :
    (b.foldl (fun acc p => dinsert acc p.1 (f p.1 p.2)) acc).length
      ≤ acc.length + b.length := by
  induction b generalizing acc with
  | nil => simp
  | cons p rest ih =>
    simp only [List.foldl_cons, List.length_cons]
    calc (rest.foldl (fun acc p => dinsert acc p.1 (f p.1 p.2))
            (dinsert acc p.1 (f p.1 p.2))).length
        ≤ (dinsert acc p.1 (f p.1 p.2)).length + rest.length := ih _
      _ ≤ (acc.length + 1) + rest.length := by
          have := length_dinsert_le acc p.1 (f p.1 p.2)
          omega
      _ = acc.length + (rest.length + 1) := by omega

theorem contains_runBatch {β : Type} (f : String → String → β)
    (b : List (String × String)) (i : String) :
    shardContains (runBatch f b) i = b.any (fun p => i == p.1) := by
  rw [runBatch, contains_foldl_dinsert]
  simp [shardContains, List.lookup]

theorem keysNodup_runBatch {β : Type} (f : String → String → β)
    (b : List (String × String)) : keysNodup (runBatch f b) :=
  keysNodup_foldl_dinsert f b [] (by simp [keysNodup])

theorem length_runBatch_le {β : Type} (f : String → String → β)
    (b : List (String × String)) : (runBatch f b).length ≤ b.length := by
  have := length_foldl_dinsert_le f b []
  simpa [runBatch] using this

theorem dupdate_fresh_append {β : Type} (b d : Shard β)
    (hfresh : ∀ p ∈ b, shardContains d p.1 = false) (hnd : keysNodup b) :
    dupdate d b = d ++ b := by
  induction b generalizing d with
  | nil => simp [dupdate_nil]
  | cons p rest ih =>
    rw [dupdate_cons, dinsert_not_contains _ _ _ (hfresh p (by simp))]
    simp only [keysNodup, List.map_cons, List.nodup_cons] at hnd
    have hstep : dupdate (d ++ [(p.1, p.2)]) rest = (d ++ [(p.1, p.2)]) ++ rest := by
      apply ih
      · intro q hq
        have h1 : shardContains d q.1 = false := hfresh q (by simp [hq])
        have h2 : q.1 ≠ p.1 := by
          intro hc
          exact hnd.1 (hc ▸ List.mem_map_of_mem Prod.fst hq)
        rw [shardContains] at h1 ⊢
        rw [lookup_append_singleton_ne _ _ _ _ h2]
        exact h1
      · exact hnd.2
    rw [hstep]
    simp

/-!  ## Merge-step lemmas -/

theorem dropLast_append_getLast_eq {α : Type} (l : List α) (a : α)
    (h : l.getLast? = some a) : l.dropLast ++ [a] = l := by
  have h1 : l ≠ [] := by rintro rfl; simp at h
  rw [List.getLast?_eq_getLast l h1, Option.some_inj] at h
  rw [← h]
  exact List.dropLast_append_getLast h1

theorem mem_of_contains {β : Type} (s : Shard β) (i : String)
    (hs : shardContains s i = true) (stored : List (Shard β))
    (hmem : s ∈ stored) : anyContains stored i = true := by
  simp only [anyContains, List.any_eq_true]
  exact ⟨s, hmem, hs⟩

theorem contains_of_mem_pair {β : Type} (s : Shard β) (p : String × β)
    (hp : p ∈ s) : shardContains s p.1 = true :=
  (mem_keys_iff_contains s p.1).1 (List.mem_map_of_mem Prod.fst hp)

theorem findSome?_singleton {α γ : Type} (f : α → Option γ) (a : α) :
    ([a].findSome? f) = f a := by
  rcases h : f a with _ | w <;> simp [List.findSome?_cons, h]

theorem or_none_left {α : Type} (o : Option α) : Option.or none o = o := rfl

theorem or_some_left {α : Type} (a : α) (o : Option α) :
    Option.or (some a) o = some a := rfl

/-- `updateLast` on a store with an explicit final shard. -/
theorem updateLast_concat {β : Type} (stored : List (Shard β)) (s bres : Shard β) :
    updateLast (stored ++ [s]) bres = some (stored ++ [dupdate s bres]) := by
  simp [updateLast]

/-- Everything `updateLast` guarantees when the incoming dict is fresh for
the store: separation, key-uniqueness, preservation of existing bindings,
and the exact key set of the result. -/
theorem updateLast_props {β : Type} (stored : List (Shard β)) (bres : Shard β)
    (out : List (Shard β)) (hout : updateLast stored bres = some out)
    (hsep : storeSep stored) (hnd : ∀ s ∈ stored, keysNodup s)
    (hfresh : ∀ i, shardContains bres i = true → anyContains stored i = false) :
    storeSep out ∧ (∀ s ∈ out, keysNodup s) ∧
      (∀ i v, storeLookup stored i = some v → storeLookup out i = some v) ∧
      (∀ i, anyContains out i = (anyContains stored i || shardContains bres i)) ∧
      out ≠ [] := by
  rcases hlast : stored.getLast? with _ | last
  · rw [updateLast, hlast] at hout; exact absurd hout (by simp)
  · rw [updateLast, hlast, Option.some_inj] at hout
    subst hout
    have hdecomp : stored.dropLast ++ [last] = stored :=
      dropLast_append_getLast_eq stored last hlast
    have hsep2 : (stored.dropLast ++ [last]).Pairwise shardDisj := by
      rw [hdecomp]; exact hsep
    rw [List.pairwise_append] at hsep2
    have hlastmem : last ∈ stored := by
      rw [← hdecomp]; simp
    have hfreshlast : ∀ i, shardContains bres i = true →
        shardContains last i = false := by
      intro i hi
      by_contra hc
      have hc2 : shardContains last i = true := by simpa using hc
      have h1 := mem_of_contains last i hc2 stored hlastmem
      rw [hfresh i hi] at h1
      exact absurd h1 (by simp)
    refine ⟨?_, ?_, ?_, ?_, ?_⟩
    · show List.Pairwise shardDisj _
      rw [List.pairwise_append]
      refine ⟨hsep2.1, by simp, ?_⟩
      intro s hs t ht
      rw [List.mem_singleton] at ht
      subst ht
      intro p hp
      rw [contains_dupdate]
      have hsmem : s ∈ stored := by
        rw [← hdecomp]; exact List.mem_append_left _ hs
      have h1 : shardContains last p.1 = false :=
        hsep2.2.2 s hs last (List.mem_singleton.2 rfl) p hp
      have h2 : shardContains bres p.1 = false := by
        by_contra hc
        have hc2 : shardContains bres p.1 = true := by simpa using hc
        have := hfresh p.1 hc2
        rw [mem_of_contains s p.1 (contains_of_mem_pair s p hp) stored hsmem] at this
        exact absurd this (by simp)
      rw [h1, h2]
      rfl
    · intro s hs
      rcases List.mem_append.1 hs with hs | hs
      · exact hnd s (by rw [← hdecomp]; exact List.mem_append_left _ hs)
      · rw [List.mem_singleton] at hs
        subst hs
        exact keysNodup_dupdate _ _ (hnd last hlastmem)
    · intro i v hv
      rw [storeLookup, ← hdecomp, List.findSome?_append] at hv
      rw [storeLookup, List.findSome?_append]
      rcases hpre : stored.dropLast.findSome? (fun s => s.lookup i) with _ | w
      · rw [hpre, or_none_left] at hv
        rw [hpre, or_none_left]
        rw [findSome?_singleton] at hv
        have hci : shardContains last i = true := by
          simp [shardContains, hv]
        have hbi : shardContains bres i = false := by
          by_contra hc
          have hc2 : shardContains bres i = true := by simpa using hc
          exact absurd (hfreshlast i hc2) (by simp [hci])
        rw [findSome?_singleton, lookup_dupdate_not_contains bres last i hbi]
        exact hv
      · rw [hpre, or_some_left] at hv
        rw [hpre, or_some_left]
        exact hv
    · intro i
      have hL : anyContains (stored.dropLast ++ [dupdate last bres]) i
          = (anyContains stored.dropLast i || shardContains (dupdate last bres) i) := by
        simp [anyContains, List.any_append]
      have hR : anyContains stored i
          = (anyContains stored.dropLast i || shardContains last i) := by
        conv_lhs => rw [← hdecomp]
        simp [anyContains, List.any_append]
      rw [hL, hR, contains_dupdate]
      cases anyContains stored.dropLast i <;> cases shardContains last i <;>
        cases shardContains bres i <;> simp
    · simp

/-- `mergeStep` inherits all `updateLast` guarantees. -/
theorem mergeStep_props {β : Type} (stored : List (Shard β)) (bres : Shard β)
    (m : Nat) (out : List (Shard β)) (hout : mergeStep stored bres m = some out)
    (hsep : storeSep stored) (hnd : ∀ s ∈ stored, keysNodup s)
    (hfresh : ∀ i, shardContains bres i = true → anyContains stored i = false) :
    storeSep out ∧ (∀ s ∈ out, keysNodup s) ∧
      (∀ i v, storeLookup stored i = some v → storeLookup out i = some v) ∧
      (∀ i, anyContains out i = (anyContains stored i || shardContains bres i)) ∧
      out ≠ [] := by
  rcases hlast : stored.getLast? with _ | last
  · rw [mergeStep, hlast] at hout; exact absurd hout (by simp)
  · simp only [mergeStep, hlast] at hout
    by_cases hsz : last.length + bres.length > m
    · rw [if_pos hsz] at hout
      have hsep2 : storeSep (stored ++ [[]]) := by
        rw [storeSep, List.pairwise_append]
        exact ⟨hsep, by simp, fun s _ t ht => by
          rw [List.mem_singleton] at ht
          subst ht
          intro p _
          simp [shardContains, List.lookup]⟩
      have hnd2 : ∀ s ∈ stored ++ [[]], keysNodup s := by
        intro s hs
        rcases List.mem_append.1 hs with hs | hs
        · exact hnd s hs
        · rw [List.mem_singleton] at hs; subst hs; simp [keysNodup]
      have hany2 : ∀ i, anyContains (stored ++ [[]]) i = anyContains stored i := by
        intro i
        rw [anyContains, List.any_append]
        simp [anyContains, shardContains, List.lookup]
      have hfresh2 : ∀ i, shardContains bres i = true →
          anyContains (stored ++ [[]]) i = false := by
        intro i hi; rw [hany2]; exact hfresh i hi
      obtain ⟨c1, c2, c3, c4, c5⟩ :=
        updateLast_props (stored ++ [[]]) bres out hout hsep2 hnd2 hfresh2
      refine ⟨c1, c2, ?_, ?_, c5⟩
      · intro i v hv
        apply c3
        rw [storeLookup, List.findSome?_append]
        rw [storeLookup] at hv
        simp [List.findSome?_cons, hv, Option.or, List.lookup]
      · intro i
        rw [c4 i, hany2]
    · rw [if_neg hsz] at hout
      exact updateLast_props stored bres out hout hsep hnd hfresh

/-- `mergeStep` keeps every shard within the bound when the incoming dict
does not exceed it (the overflow check starts a new shard in time). -/
theorem mergeStep_bound {β : Type} (stored : List (Shard β)) (bres : Shard β)
    (m : Nat) (out : List (Shard β)) (hout : mergeStep stored bres m = some out)
    (hbound : shardsBounded stored m) (hb : bres.length ≤ m) :
    shardsBounded out m := by
  rcases hlast : stored.getLast? with _ | last
  · rw [mergeStep, hlast] at hout; exact absurd hout (by simp)
  · simp only [mergeStep, hlast] at hout
    have hdecomp : stored.dropLast ++ [last] = stored :=
      dropLast_append_getLast_eq stored last hlast
    by_cases hsz : last.length + bres.length > m
    · rw [if_pos hsz, updateLast_concat, Option.some_inj] at hout
      intro s hs
      rw [← hout] at hs
      rcases List.mem_append.1 hs with hs | hs
      · exact hbound s hs
      · rw [List.mem_singleton] at hs
        subst hs
        calc (dupdate [] bres).length ≤ [].length + bres.length :=
              length_dupdate_le bres []
          _ ≤ m := by simpa using hb
    · rw [if_neg hsz, updateLast, hlast, Option.some_inj] at hout
      intro s hs
      rw [← hout] at hs
      rcases List.mem_append.1 hs with hs | hs
      · exact hbound s (List.dropLast_subset stored hs)
      · rw [List.mem_singleton] at hs
        subst hs
        calc (dupdate last bres).length ≤ last.length + bres.length :=
              length_dupdate_le bres last
          _ ≤ m := by omega

/-!  ## Claims -/

/-- C1: claimed: for every checkpoint directory path that is absent, or
that exists but contains no entries, `load_checkpoint` creates the
directory and returns exactly one shard, the empty mapping.  The absent
case behaves as claimed, but for an existing directory with no entries the
`os.makedirs(checkpoints_path)` call (no `exist_ok`) raises
`FileExistsError`, so the call fails instead of returning. -/
theorem load_checkpoint_empty_dir_crashes :
    load_checkpoint (β := NLJson) (some []) = none ∧
    load_checkpoint (β := NLJson) none = some (some [], [[]]) :=
  ⟨rfl, rfl⟩

/-- C2: when the last shard holds M - 1 entries and a batch dict of N ≥ 2
new entries arrives, the merge step starts a new shard, puts the whole
batch (the overflow included) in that new shard, and leaves every
existing shard, the previous last one included, unchanged. -/
theorem mergeStep_full_last_new_shard {β : Type} (stored : List (Shard β))
    (last bres : Shard β) (m : Nat)
    (hlast : stored.getLast? = some last)
    (hsize : last.length = m - 1) (hm : 1 ≤ m)
    (hn : 2 ≤ bres.length) (hnd : keysNodup bres)
    (hfresh : ∀ p ∈ bres, shardContains last p.1 = false) :
    mergeStep stored bres m = some (stored ++ [bres]) := by
  simp only [mergeStep, hlast]
  rw [if_pos (by omega), updateLast_concat,
    dupdate_fresh_append bres []
      (fun p _ => by simp [shardContains, List.lookup]) hnd]
  simp

theorem mergeStep_full_last_new_shard_witness :
    mergeStep [[("a", "ra")]] [("b", "rb"), ("c", "rc")] 2 =
      some [[("a", "ra")], [("b", "rb"), ("c", "rc")]] :=
  mergeStep_full_last_new_shard [[("a", "ra")]] [("a", "ra")]
    [("b", "rb"), ("c", "rc")] 2 rfl rfl (by decide) (by decide) (by decide)
    (by decide)

/-- C9: claimed: both module variants accumulate unseen records until the
batch reaches the configured batch size and then dispatch it, repeating
for every full batch.  `call_nlp_api.py` does, and returns its shard
list; in `nlp_api.py` the dispatch block sits outside the scan loop, so
nothing is dispatched when a batch fills — a single dispatch of the whole
accumulation runs after the scan, and the merge that follows reads the
shared dict after its manager was shut down, so that variant always
raises and never returns a shard list at all. -/
theorem call_nl_api_variants_diverge :
    CallNlpApi.call_nl_api [("a", "x"), ("b", "y")] [[]] (fun i _ => i ++ "!")
      1 1 (fun _ => PoolOutcome.ok) = some [[("a", "a!")], [("b", "b!")]] ∧
    (∀ (df : List (String × String)) (stored : List (Shard String))
        (apiFn : String → String → String) (bs m : Nat)
        (pool : Nat → PoolOutcome),
      NlpApi.call_nl_api df stored apiFn bs m pool = none) ∧
    CallNlpApi.call_nl_api [("a", "x"), ("b", "y")] [[]] (fun i _ => i ++ "!")
      1 1 (fun _ => PoolOutcome.ok) ≠
      NlpApi.call_nl_api [("a", "x"), ("b", "y")] [[]] (fun i _ => i ++ "!")
        1 1 (fun _ => PoolOutcome.ok) := by
  refine ⟨by decide, ?_, by decide⟩
  intro df stored apiFn bs m pool
  cases h : stored.getLast? <;> simp [NlpApi.call_nl_api, h]

namespace CallNlpApi

theorem batchLoop_nil {β : Type} (apiFn : String → String → β) (bs m : Nat)
    (pool : Nat → PoolOutcome) (st : LoopState β) :
    batchLoop apiFn bs m pool [] st = some st := rfl

theorem batchLoop_cons_skip {β : Type} (apiFn : String → String → β)
    (bs m : Nat) (pool : Nat → PoolOutcome) (i doc : String)
    (rest : List (String × String)) (st : LoopState β)
    (h : anyContains st.stored i = true) :
    batchLoop apiFn bs m pool ((i, doc) :: rest) st =
      batchLoop apiFn bs m pool rest st := by
  simp [batchLoop, h]

theorem batchLoop_cons_acc {β : Type} (apiFn : String → String → β)
    (bs m : Nat) (pool : Nat → PoolOutcome) (i doc : String)
    (rest : List (String × String)) (st : LoopState β)
    (h : anyContains st.stored i = false)
    (hlen : st.batch.length + 1 < bs) :
    batchLoop apiFn bs m pool ((i, doc) :: rest) st =
      batchLoop apiFn bs m pool rest
        ⟨st.batch ++ [(i, doc)], st.stored, st.k, st.prev⟩ := by
  simp [batchLoop, h, hlen]

theorem batchLoop_cons_dispatch_ok {β : Type} (apiFn : String → String → β)
    (bs m : Nat) (pool : Nat → PoolOutcome) (i doc : String)
    (rest : List (String × String)) (st : LoopState β)
    (h : anyContains st.stored i = false)
    (hlen : ¬ st.batch.length + 1 < bs)
    (hpool : pool st.k = PoolOutcome.ok) :
    batchLoop apiFn bs m pool ((i, doc) :: rest) st =
      match mergeStep st.stored (runBatch apiFn (st.batch ++ [(i, doc)])) m with
      | none => none
      | some stored => batchLoop apiFn bs m pool rest
          ⟨[], stored, st.k + 1,
            some (runBatch apiFn (st.batch ++ [(i, doc)]))⟩ := by
  simp [batchLoop, h, hlen, hpool]

theorem batchLoop_cons_dispatch_failedAfter {β : Type}
    (apiFn : String → String → β) (bs m : Nat) (pool : Nat → PoolOutcome)
    (keep : String → Bool) (i doc : String) (rest : List (String × String))
    (st : LoopState β)
    (h : anyContains st.stored i = false)
    (hlen : ¬ st.batch.length + 1 < bs)
    (hpool : pool st.k = PoolOutcome.failedAfter keep) :
    batchLoop apiFn bs m pool ((i, doc) :: rest) st =
      match mergeStep st.stored
          (runBatch apiFn ((st.batch ++ [(i, doc)]).filter (fun p => keep p.1)))
          m with
      | none => none
      | some stored => batchLoop apiFn bs m pool rest
          ⟨[], stored, st.k + 1,
            some (runBatch apiFn
              ((st.batch ++ [(i, doc)]).filter (fun p => keep p.1)))⟩ := by
  simp [batchLoop, h, hlen, hpool]

theorem batchLoop_cons_dispatch_failedBefore {β : Type}
    (apiFn : String → String → β) (bs m : Nat) (pool : Nat → PoolOutcome)
    (i doc : String) (rest : List (String × String)) (st : LoopState β)
    (h : anyContains st.stored i = false)
    (hlen : ¬ st.batch.length + 1 < bs)
    (hpool : pool st.k = PoolOutcome.failedBefore) :
    batchLoop apiFn bs m pool ((i, doc) :: rest) st =
      match st.prev with
      | none => none
      | some stale =>
        match mergeStep st.stored stale m with
        | none => none
        | some stored =>
          batchLoop apiFn bs m pool rest ⟨[], stored, st.k + 1, some stale⟩ := by
  simp [batchLoop, h, hlen, hpool]

/-- The loop invariant of `call_nl_api`, for runs in which no caught
dispatch failure precedes the rebinding of the result dict (every
outcome is `ok` or `failedAfter`): separation and key-uniqueness of the
store, freshness of the pending batch, preservation of existing bindings
and monotonicity of the stored key set. -/
theorem batchLoop_inv {β : Type} (apiFn : String → String → β) (bs m : Nat)
    (pool : Nat → PoolOutcome) (df : List (String × String))
    (st st' : LoopState β)
    (hrun : batchLoop apiFn bs m pool df st = some st')
    (hnofb : ∀ j, pool j ≠ PoolOutcome.failedBefore)
    (hsep : storeSep st.stored) (hnd : ∀ s ∈ st.stored, keysNodup s)
    (hbatch : ∀ p ∈ st.batch, anyContains st.stored p.1 = false) :
    storeSep st'.stored ∧ (∀ s ∈ st'.stored, keysNodup s) ∧
      (∀ p ∈ st'.batch, anyContains st'.stored p.1 = false) ∧
      (∀ i v, storeLookup st.stored i = some v →
        storeLookup st'.stored i = some v) ∧
      (∀ i, anyContains st.stored i = true → anyContains st'.stored i = true) := by
  induction df generalizing st with
  | nil =>
    rw [batchLoop_nil, Option.some_inj] at hrun
    subst hrun
    exact ⟨hsep, hnd, hbatch, fun _ _ h => h, fun _ h => h⟩
  | cons hd rest ih =>
    obtain ⟨i, doc⟩ := hd
    by_cases hskip : anyContains st.stored i = true
    · rw [batchLoop_cons_skip apiFn bs m pool i doc rest st hskip] at hrun
      exact ih st hrun hsep hnd hbatch
    · have hskip2 : anyContains st.stored i = false := by simpa using hskip
      by_cases hlen : st.batch.length + 1 < bs
      · rw [batchLoop_cons_acc apiFn bs m pool i doc rest st hskip2 hlen] at hrun
        refine ih ⟨st.batch ++ [(i, doc)], st.stored, st.k, st.prev⟩ hrun hsep hnd ?_
        intro p hp
        rcases List.mem_append.1 hp with hp | hp
        · exact hbatch p hp
        · rw [List.mem_singleton] at hp
          subst hp
          exact hskip2
      · have hbatchfresh : ∀ p ∈ st.batch ++ [(i, doc)],
            anyContains st.stored p.1 = false := by
          intro p hp
          rcases List.mem_append.1 hp with hp | hp
          · exact hbatch p hp
          · rw [List.mem_singleton] at hp
            subst hp
            exact hskip2
        rcases hpo : pool st.k with _ | keep | _
        · rw [batchLoop_cons_dispatch_ok apiFn bs m pool i doc rest st hskip2
            hlen hpo] at hrun
          rcases hms : mergeStep st.stored
              (runBatch apiFn (st.batch ++ [(i, doc)])) m with _ | stored2
          · rw [hms] at hrun
            exact absurd hrun (by simp)
          · rw [hms] at hrun
            have hfresh : ∀ j, shardContains
                (runBatch apiFn (st.batch ++ [(i, doc)])) j = true →
                anyContains st.stored j = false := by
              intro j hj
              rw [contains_runBatch] at hj
              simp only [List.any_eq_true] at hj
              obtain ⟨p, hp, hpj⟩ := hj
              have hj2 : j = p.1 := by simpa using hpj
              subst hj2
              exact hbatchfresh p hp
            obtain ⟨c1, c2, c3, c4, c5⟩ :=
              mergeStep_props st.stored _ m stored2 hms hsep hnd hfresh
            obtain ⟨d1, d2, d3, d4, d5⟩ :=
              ih ⟨[], stored2, st.k + 1,
                some (runBatch apiFn (st.batch ++ [(i, doc)]))⟩ hrun c1 c2
                (by simp)
            refine ⟨d1, d2, d3, ?_, ?_⟩
            · intro j v hv
              exact d4 j v (c3 j v hv)
            · intro j hj
              apply d5
              rw [c4 j, hj]
              simp
        · rw [batchLoop_cons_dispatch_failedAfter apiFn bs m pool keep i doc
            rest st hskip2 hlen hpo] at hrun
          rcases hms : mergeStep st.stored
              (runBatch apiFn ((st.batch ++ [(i, doc)]).filter
                (fun p => keep p.1))) m with _ | stored2
          · rw [hms] at hrun
            exact absurd hrun (by simp)
          · rw [hms] at hrun
            have hfresh : ∀ j, shardContains
                (runBatch apiFn ((st.batch ++ [(i, doc)]).filter
                  (fun p => keep p.1))) j = true →
                anyContains st.stored j = false := by
              intro j hj
              rw [contains_runBatch] at hj
              simp only [List.any_eq_true] at hj
              obtain ⟨p, hp, hpj⟩ := hj
              have hj2 : j = p.1 := by simpa using hpj
              subst hj2
              exact hbatchfresh p (List.mem_filter.1 hp).1
            obtain ⟨c1, c2, c3, c4, c5⟩ :=
              mergeStep_props st.stored _ m stored2 hms hsep hnd hfresh
            obtain ⟨d1, d2, d3, d4, d5⟩ :=
              ih ⟨[], stored2, st.k + 1,
                some (runBatch apiFn ((st.batch ++ [(i, doc)]).filter
                  (fun p => keep p.1)))⟩ hrun c1 c2 (by simp)
            refine ⟨d1, d2, d3, ?_, ?_⟩
            · intro j v hv
              exact d4 j v (c3 j v hv)
            · intro j hj
              apply d5
              rw [c4 j, hj]
              simp
        · exact absurd hpo (hnofb st.k)

end CallNlpApi

theorem foldl_dinsert_congr {β : Type} (f g : String → String → β)
    (b : List (String × String)) (acc : Shard β)
    (h : ∀ p ∈ b, f p.1 p.2 = g p.1 p.2) :
    b.foldl (fun acc p => dinsert acc p.1 (f p.1 p.2)) acc =
      b.foldl (fun acc p => dinsert acc p.1 (g p.1 p.2)) acc := by
  induction b generalizing acc with
  | nil => rfl
  | cons p rest ih =>
    simp only [List.foldl_cons]
    rw [h p (by simp)]
    exact ih _ (fun q hq => h q (by simp [hq]))

theorem runBatch_congr {β : Type} (f g : String → String → β)
    (b : List (String × String)) (h : ∀ p ∈ b, f p.1 p.2 = g p.1 p.2) :
    runBatch f b = runBatch g b :=
  foldl_dinsert_congr f g b [] h

theorem anyContains_updateLast_mono {β : Type} (stored : List (Shard β))
    (bres : Shard β) (out : List (Shard β))
    (hout : updateLast stored bres = some out) (i : String)
    (h : anyContains stored i = true) : anyContains out i = true := by
  rcases hlast : stored.getLast? with _ | last
  · rw [updateLast, hlast] at hout; exact absurd hout (by simp)
  · rw [updateLast, hlast, Option.some_inj] at hout
    subst hout
    have hdecomp : stored.dropLast ++ [last] = stored :=
      dropLast_append_getLast_eq stored last hlast
    rw [← hdecomp] at h
    simp only [anyContains, List.any_append, List.any_cons, List.any_nil] at h ⊢
    rw [contains_dupdate]
    cases hc1 : stored.dropLast.any (fun s => shardContains s i) <;>
      cases hc2 : shardContains last i <;>
        rw [hc1, hc2] at h <;> simp_all

theorem anyContains_mergeStep_mono {β : Type} (stored : List (Shard β))
    (bres : Shard β) (m : Nat) (out : List (Shard β))
    (hout : mergeStep stored bres m = some out) (i : String)
    (h : anyContains stored i = true) : anyContains out i = true := by
  rcases hlast : stored.getLast? with _ | last
  · rw [mergeStep, hlast] at hout; exact absurd hout (by simp)
  · simp only [mergeStep, hlast] at hout
    by_cases hsz : last.length + bres.length > m
    · rw [if_pos hsz] at hout
      refine anyContains_updateLast_mono _ _ _ hout i ?_
      simp only [anyContains, List.any_append] at h ⊢
      simp [h]
    · rw [if_neg hsz] at hout
      exact anyContains_updateLast_mono _ _ _ hout i h

namespace CallNlpApi

/-- The loop's outcome does not depend on the annotation function's values
at ids already stored when the run began (those rows are skipped), as long
as no `failedBefore` outcome occurs (a stale re-merge would not involve
the annotation function either, but is excluded for uniformity with the
invariant). -/
theorem batchLoop_congr {β : Type} (f g : String → String → β) (bs m : Nat)
    (pool : Nat → PoolOutcome) (stored0 : List (Shard β))
    (df : List (String × String)) (st : LoopState β)
    (hnofb : ∀ j, pool j ≠ PoolOutcome.failedBefore)
    (hagree : ∀ i doc, anyContains stored0 i = false → f i doc = g i doc)
    (hmono : ∀ i, anyContains stored0 i = true → anyContains st.stored i = true)
    (hbatch : ∀ p ∈ st.batch, anyContains st.stored p.1 = false) :
    batchLoop f bs m pool df st = batchLoop g bs m pool df st := by
  induction df generalizing st with
  | nil => rfl
  | cons hd rest ih =>
    obtain ⟨i, doc⟩ := hd
    by_cases hskip : anyContains st.stored i = true
    · rw [batchLoop_cons_skip f bs m pool i doc rest st hskip,
        batchLoop_cons_skip g bs m pool i doc rest st hskip]
      exact ih st hmono hbatch
    · have hskip2 : anyContains st.stored i = false := by simpa using hskip
      by_cases hlen : st.batch.length + 1 < bs
      · rw [batchLoop_cons_acc f bs m pool i doc rest st hskip2 hlen,
          batchLoop_cons_acc g bs m pool i doc rest st hskip2 hlen]
        refine ih ⟨st.batch ++ [(i, doc)], st.stored, st.k, st.prev⟩ hmono ?_
        intro p hp
        rcases List.mem_append.1 hp with hp | hp
        · exact hbatch p hp
        · rw [List.mem_singleton] at hp
          subst hp
          exact hskip2
      · have hbatchfresh : ∀ p ∈ st.batch ++ [(i, doc)],
            anyContains st.stored p.1 = false := by
          intro p hp
          rcases List.mem_append.1 hp with hp | hp
          · exact hbatch p hp
          · rw [List.mem_singleton] at hp
            subst hp
            exact hskip2
        have hagree2 : ∀ p ∈ st.batch ++ [(i, doc)], f p.1 p.2 = g p.1 p.2 := by
          intro p hp
          refine hagree p.1 p.2 ?_
          by_contra hc
          have hc2 : anyContains stored0 p.1 = true := by simpa using hc
          have h3 := hbatchfresh p hp
          rw [hmono p.1 hc2] at h3
          exact absurd h3 (by simp)
        rcases hpo : pool st.k with _ | keep | _
        · rw [batchLoop_cons_dispatch_ok f bs m pool i doc rest st hskip2
            hlen hpo,
            batchLoop_cons_dispatch_ok g bs m pool i doc rest st hskip2
            hlen hpo]
          have hrb : runBatch f (st.batch ++ [(i, doc)])
              = runBatch g (st.batch ++ [(i, doc)]) :=
            runBatch_congr f g _ hagree2
          rw [hrb]
          rcases hms : mergeStep st.stored
              (runBatch g (st.batch ++ [(i, doc)])) m with _ | stored2
          · rfl
          · refine ih ⟨[], stored2, st.k + 1,
              some (runBatch g (st.batch ++ [(i, doc)]))⟩ ?_ (by simp)
            intro j hj
            exact anyContains_mergeStep_mono st.stored _ m stored2 hms j
              (hmono j hj)
        · rw [batchLoop_cons_dispatch_failedAfter f bs m pool keep i doc rest
            st hskip2 hlen hpo,
            batchLoop_cons_dispatch_failedAfter g bs m pool keep i doc rest
            st hskip2 hlen hpo]
          have hrb : runBatch f ((st.batch ++ [(i, doc)]).filter
                (fun p => keep p.1))
              = runBatch g ((st.batch ++ [(i, doc)]).filter
                (fun p => keep p.1)) :=
            runBatch_congr f g _
              (fun p hp => hagree2 p (List.mem_filter.1 hp).1)
          rw [hrb]
          rcases hms : mergeStep st.stored
              (runBatch g ((st.batch ++ [(i, doc)]).filter (fun p => keep p.1)))
              m with _ | stored2
          · rfl
          · refine ih ⟨[], stored2, st.k + 1,
              some (runBatch g ((st.batch ++ [(i, doc)]).filter
                (fun p => keep p.1)))⟩ ?_ (by simp)
            intro j hj
            exact anyContains_mergeStep_mono st.stored _ m stored2 hms j
              (hmono j hj)
        · exact absurd hpo (hnofb st.k)

/-- Loop bound invariant, for every pool behaviour: shards stay within
`m`, the pending batch stays strictly below the batch size, and the live
previous-batch dict (if any) stays within the batch size. -/
theorem batchLoop_bound {β : Type} (apiFn : String → String → β) (bs m : Nat)
    (pool : Nat → PoolOutcome) (df : List (String × String))
    (st st' : LoopState β)
    (hrun : batchLoop apiFn bs m pool df st = some st')
    (hbs : 1 ≤ bs) (hbsm : bs ≤ m)
    (hbound : shardsBounded st.stored m) (hblen : st.batch.length < bs)
    (hprev : ∀ d, st.prev = some d → d.length ≤ bs) :
    shardsBounded st'.stored m ∧ st'.batch.length < bs := by
  induction df generalizing st with
  | nil =>
    rw [batchLoop_nil, Option.some_inj] at hrun
    subst hrun
    exact ⟨hbound, hblen⟩
  | cons hd rest ih =>
    obtain ⟨i, doc⟩ := hd
    by_cases hskip : anyContains st.stored i = true
    · rw [batchLoop_cons_skip apiFn bs m pool i doc rest st hskip] at hrun
      exact ih st hrun hbound hblen hprev
    · have hskip2 : anyContains st.stored i = false := by simpa using hskip
      by_cases hlen : st.batch.length + 1 < bs
      · rw [batchLoop_cons_acc apiFn bs m pool i doc rest st hskip2 hlen] at hrun
        refine ih ⟨st.batch ++ [(i, doc)], st.stored, st.k, st.prev⟩ hrun hbound
          ?_ hprev
        simpa using hlen
      · rcases hpo : pool st.k with _ | keep | _
        · rw [batchLoop_cons_dispatch_ok apiFn bs m pool i doc rest st hskip2
            hlen hpo] at hrun
          rcases hms : mergeStep st.stored
              (runBatch apiFn (st.batch ++ [(i, doc)])) m with _ | stored2
          · rw [hms] at hrun
            exact absurd hrun (by simp)
          · rw [hms] at hrun
            have hbres : (runBatch apiFn (st.batch ++ [(i, doc)])).length ≤ bs := by
              calc (runBatch apiFn (st.batch ++ [(i, doc)])).length
                  ≤ (st.batch ++ [(i, doc)]).length := length_runBatch_le _ _
                _ = st.batch.length + 1 := by simp
                _ ≤ bs := by omega
            have hbound2 := mergeStep_bound st.stored _ m stored2 hms hbound
              (le_trans hbres hbsm)
            refine ih ⟨[], stored2, st.k + 1,
              some (runBatch apiFn (st.batch ++ [(i, doc)]))⟩ hrun hbound2
              (by simpa using hbs) ?_
            intro d hd
            rw [Option.some_inj] at hd
            subst hd
            exact hbres
        · rw [batchLoop_cons_dispatch_failedAfter apiFn bs m pool keep i doc
            rest st hskip2 hlen hpo] at hrun
          rcases hms : mergeStep st.stored
              (runBatch apiFn ((st.batch ++ [(i, doc)]).filter
                (fun p => keep p.1))) m with _ | stored2
          · rw [hms] at hrun
            exact absurd hrun (by simp)
          · rw [hms] at hrun
            have hbres : (runBatch apiFn ((st.batch ++ [(i, doc)]).filter
                (fun p => keep p.1))).length ≤ bs := by
              calc (runBatch apiFn ((st.batch ++ [(i, doc)]).filter
                    (fun p => keep p.1))).length
                  ≤ ((st.batch ++ [(i, doc)]).filter
                    (fun p => keep p.1)).length := length_runBatch_le _ _
                _ ≤ (st.batch ++ [(i, doc)]).length :=
                    List.length_filter_le _ _
                _ = st.batch.length + 1 := by simp
                _ ≤ bs := by omega
            have hbound2 := mergeStep_bound st.stored _ m stored2 hms hbound
              (le_trans hbres hbsm)
            refine ih ⟨[], stored2, st.k + 1,
              some (runBatch apiFn ((st.batch ++ [(i, doc)]).filter
                (fun p => keep p.1)))⟩ hrun hbound2 (by simpa using hbs) ?_
            intro d hd
            rw [Option.some_inj] at hd
            subst hd
            exact hbres
        · rw [batchLoop_cons_dispatch_failedBefore apiFn bs m pool i doc rest
            st hskip2 hlen hpo] at hrun
          rcases hpv : st.prev with _ | stale
          · rw [hpv] at hrun
            exact absurd hrun (by simp)
          · rw [hpv] at hrun
            have hrun2 : (match mergeStep st.stored stale m with
                | none => none
                | some stored => batchLoop apiFn bs m pool rest
                    ⟨[], stored, st.k + 1, some stale⟩) = some st' := hrun
            rcases hms : mergeStep st.stored stale m with _ | stored2
            · rw [hms] at hrun2
              exact absurd hrun2 (by simp)
            · rw [hms] at hrun2
              have hstale : stale.length ≤ bs := hprev stale hpv
              have hbound2 := mergeStep_bound st.stored stale m stored2 hms
                hbound (le_trans hstale hbsm)
              refine ih ⟨[], stored2, st.k + 1, some stale⟩ hrun2 hbound2
                (by simpa using hbs) ?_
              intro d hd
              rw [Option.some_inj] at hd
              subst hd
              exact hstale

/-- With an empty initial store the loop either raises or ends with the
store still empty: every dispatch outcome leads into the merge, whose
`stored_results[-1]` read fails on the empty list (in the `failedBefore`
case after the stale-dict lookup, or as a `NameError` when there is no
stale dict). -/
theorem batchLoop_empty_store {β : Type} (apiFn : String → String → β)
    (bs m : Nat) (pool : Nat → PoolOutcome) (df : List (String × String))
    (b : List (String × String)) (k : Nat) (prev : Option (Shard β)) :
    batchLoop apiFn bs m pool df ⟨b, ([] : List (Shard β)), k, prev⟩ = none ∨
      ∃ b2, batchLoop apiFn bs m pool df ⟨b, ([] : List (Shard β)), k, prev⟩ =
        some ⟨b2, [], k, prev⟩ := by
  induction df generalizing b with
  | nil => exact Or.inr ⟨b, rfl⟩
  | cons hd rest ih =>
    obtain ⟨i, doc⟩ := hd
    have hskip : anyContains ([] : List (Shard β)) i = false := rfl
    by_cases hlen : b.length + 1 < bs
    · rw [batchLoop_cons_acc apiFn bs m pool i doc rest _ hskip hlen]
      exact ih (b ++ [(i, doc)])
    · rcases hpo : pool k with _ | keep | _
      · rw [batchLoop_cons_dispatch_ok apiFn bs m pool i doc rest _ hskip
          hlen hpo]
        exact Or.inl rfl
      · rw [batchLoop_cons_dispatch_failedAfter apiFn bs m pool keep i doc
          rest _ hskip hlen hpo]
        exact Or.inl rfl
      · rw [batchLoop_cons_dispatch_failedBefore apiFn bs m pool i doc rest _
          hskip hlen hpo]
        rcases prev with _ | stale
        · exact Or.inl rfl
        · exact Or.inl rfl

/-- On a store that already has a shard, every merge succeeds and keeps
the store non-empty. -/
theorem mergeStep_nonempty {β : Type} (stored : List (Shard β))
    (bres : Shard β) (m : Nat) (hne : stored ≠ []) :
    ∃ out, mergeStep stored bres m = some out ∧ out ≠ [] := by
  rcases hlast : stored.getLast? with _ | last
  · rw [List.getLast?_eq_none_iff] at hlast
    exact absurd hlast hne
  · simp only [mergeStep, hlast]
    by_cases hsz : last.length + bres.length > m
    · rw [if_pos hsz, updateLast_concat]
      exact ⟨_, rfl, by simp⟩
    · rw [if_neg hsz, updateLast, hlast]
      exact ⟨_, rfl, by simp⟩

/-- With every dispatch succeeding and a non-empty initial store, the
loop returns and the store stays non-empty. -/
theorem batchLoop_total_nonempty {β : Type} (apiFn : String → String → β)
    (bs m : Nat) (df : List (String × String)) (st : LoopState β)
    (hne : st.stored ≠ []) :
    ∃ st', batchLoop apiFn bs m (fun _ => PoolOutcome.ok) df st = some st' ∧
      st'.stored ≠ [] := by
  induction df generalizing st with
  | nil => exact ⟨st, rfl, hne⟩
  | cons hd rest ih =>
    obtain ⟨i, doc⟩ := hd
    by_cases hskip : anyContains st.stored i = true
    · rw [batchLoop_cons_skip apiFn bs m _ i doc rest st hskip]
      exact ih st hne
    · have hskip2 : anyContains st.stored i = false := by simpa using hskip
      by_cases hlen : st.batch.length + 1 < bs
      · rw [batchLoop_cons_acc apiFn bs m _ i doc rest st hskip2 hlen]
        exact ih ⟨st.batch ++ [(i, doc)], st.stored, st.k, st.prev⟩ hne
      · rw [batchLoop_cons_dispatch_ok apiFn bs m _ i doc rest st hskip2
          hlen rfl]
        obtain ⟨out, hout, houtne⟩ :=
          mergeStep_nonempty st.stored
            (runBatch apiFn (st.batch ++ [(i, doc)])) m hne
        rw [hout]
        exact ih ⟨[], out, st.k + 1,
          some (runBatch apiFn (st.batch ++ [(i, doc)]))⟩ houtne

end CallNlpApi

theorem filter_keep_false {α : Type} (q : α → Bool) (l : List α)
    (h : ∀ a ∈ l, q a = false) : l.filter q = [] := by
  induction l with
  | nil => rfl
  | cons a rest ih =>
    rw [List.filter_cons, h a (by simp), if_neg (by simp)]
    exact ih (fun b hb => h b (by simp [hb]))

/-- C3 counterexample: with batch size 2 and maximum shard size 2, a
bounded store whose last shard is full plus one leftover record makes the
final drain merge push the last shard to 3 entries, above the maximum:
the drain merge has no overflow check. -/
theorem call_nl_api_drain_exceeds_max :
    CallNlpApi.call_nl_api [("a", "x")] [[("b", "rb"), ("c", "rc")]]
      (fun _ _ => "ra") 2 2 (fun _ => PoolOutcome.ok) =
      some [[("b", "rb"), ("c", "rc"), ("a", "ra")]] ∧
    ¬ shardsBounded [[("b", "rb"), ("c", "rc"), ("a", "ra")]] 2 :=
  ⟨by decide, by decide⟩

/-- C3 (amended): every merge performed inside the batching loop keeps
every shard within `max_result_size` (provided the store starts within the
bound and the batch size is at most the shard bound) — under every pool
behaviour, since a caught failure merges at most one batch's worth of
entries (partial dict or a previous batch's stale dict) — so every shard
but the final one is within the bound on return; the drain merge adds the
leftover batch (strictly smaller than the batch size) to the last shard
unconditionally, so the final shard is only bounded by
`max_result_size + batch_size - 1`. -/
theorem call_nl_api_shard_bound {β : Type} (df : List (String × String))
    (stored : List (Shard β)) (apiFn : String → String → β) (bs m : Nat)
    (pool : Nat → PoolOutcome) (out : List (Shard β))
    (hout : CallNlpApi.call_nl_api df stored apiFn bs m pool = some out)
    (hbs : 1 ≤ bs) (hbsm : bs ≤ m) (hbound : shardsBounded stored m) :
    (∀ s ∈ out.dropLast, s.length ≤ m) ∧ shardsBounded out (m + (bs - 1)) := by
  rcases hloop : CallNlpApi.batchLoop apiFn bs m pool df ⟨[], stored, 0, none⟩
      with _ | st
  · rw [CallNlpApi.call_nl_api, hloop] at hout
    exact absurd hout (by simp)
  · simp only [CallNlpApi.call_nl_api, hloop] at hout
    rcases hpo : pool st.k with _ | keep | _
    · rw [hpo] at hout
      have hout2 : updateLast st.stored (runBatch apiFn st.batch)
          = some out := hout
      obtain ⟨hstb, hblen⟩ := CallNlpApi.batchLoop_bound apiFn bs m pool df
        ⟨[], stored, 0, none⟩ st hloop hbs hbsm hbound (by simpa using hbs)
        (by intro d hd; simp at hd)
      rcases hlast : st.stored.getLast? with _ | last
      · rw [updateLast, hlast] at hout2
        exact absurd hout2 (by simp)
      · rw [updateLast, hlast, Option.some_inj] at hout2
        subst hout2
        have hlastmem : last ∈ st.stored := by
          rw [← dropLast_append_getLast_eq st.stored last hlast]
          simp
        have hrb : (runBatch apiFn st.batch).length ≤ bs - 1 := by
          have h1 := length_runBatch_le apiFn st.batch
          omega
        constructor
        · intro s hs
          simp only [List.dropLast_concat] at hs
          exact hstb s (List.dropLast_subset st.stored hs)
        · intro s hs
          rcases List.mem_append.1 hs with hs | hs
          · have := hstb s (List.dropLast_subset st.stored hs)
            omega
          · rw [List.mem_singleton] at hs
            subst hs
            have h1 := length_dupdate_le (runBatch apiFn st.batch) last
            have h2 := hstb last hlastmem
            omega
    · rw [hpo] at hout
      exact Option.noConfusion
        (show (none : Option (List (Shard β))) = some out from hout)
    · rw [hpo] at hout
      exact Option.noConfusion
        (show (none : Option (List (Shard β))) = some out from hout)

theorem call_nl_api_shard_bound_witness :
    (∀ s ∈ ([[("b", "rb"), ("a", "ra")]] :
        List (Shard String)).dropLast, s.length ≤ 2) ∧
    shardsBounded ([[("b", "rb"), ("a", "ra")]] : List (Shard String))
      (2 + (2 - 1)) :=
  call_nl_api_shard_bound [("a", "x")] [[("b", "rb")]] (fun _ _ => "ra") 2 2
    (fun _ => PoolOutcome.ok) [[("b", "rb"), ("a", "ra")]] (by decide)
    (by decide) (by decide) (by decide)

/-- C4 counterexample: a caught `Pool()`/`Manager()`/`manager.dict()`
creation failure at the second dispatch leaves `batch_results` bound to
the first dispatch's still-live dict, and lines 153-155 then re-merge that
first batch; the size check fires, so the duplicate copy lands in a fresh
shard: record "a" ends up in two shards and the at-most-one-shard
invariant breaks, even though the run returns normally. -/
theorem call_nl_api_stale_dict_duplicates :
    CallNlpApi.call_nl_api [("a", "x"), ("b", "y")] [[]] (fun i _ => i ++ "!")
      1 1 (fun k => if k = 1 then PoolOutcome.failedBefore else PoolOutcome.ok)
      = some [[("a", "a!")], [("a", "a!")]] ∧
    ¬ storeSep [[("a", "a!")], [("a", "a!")]] :=
  ⟨by decide, by decide⟩

/-- C4 (amended): when every record id appears in at most one shard of the
store (each shard a well-formed dict), a run in which no caught dispatch
failure strikes before the result dict is rebound (no `failedBefore`
outcome — such a failure re-merges the previous batch's stale dict and can
duplicate it into a new shard) keeps it that way; every binding already
stored is returned unchanged, and the outcome does not depend on the
annotation function at any already-stored id (the scan skips those
records, so no annotation call is made for them). -/
theorem call_nl_api_skip_and_separation {β : Type}
    (df : List (String × String)) (stored : List (Shard β))
    (apiFn : String → String → β) (bs m : Nat) (pool : Nat → PoolOutcome)
    (out : List (Shard β))
    (hout : CallNlpApi.call_nl_api df stored apiFn bs m pool = some out)
    (hnofb : ∀ j, pool j ≠ PoolOutcome.failedBefore)
    (hsep : storeSep stored) (hnd : ∀ s ∈ stored, keysNodup s) :
    storeSep out ∧ (∀ s ∈ out, keysNodup s) ∧
      (∀ i v, storeLookup stored i = some v → storeLookup out i = some v) ∧
      (∀ g, (∀ i doc, anyContains stored i = false → apiFn i doc = g i doc) →
        CallNlpApi.call_nl_api df stored g bs m pool = some out) := by
  rcases hloop : CallNlpApi.batchLoop apiFn bs m pool df ⟨[], stored, 0, none⟩
      with _ | st
  · rw [CallNlpApi.call_nl_api, hloop] at hout
    exact absurd hout (by simp)
  · simp only [CallNlpApi.call_nl_api, hloop] at hout
    rcases hpo : pool st.k with _ | keep | _
    · rw [hpo] at hout
      have hout2 : updateLast st.stored (runBatch apiFn st.batch)
          = some out := hout
      obtain ⟨i1, i2, i3, i4, i5⟩ := CallNlpApi.batchLoop_inv apiFn bs m pool
        df ⟨[], stored, 0, none⟩ st hloop hnofb hsep hnd (by simp)
      have hfresh : ∀ j, shardContains (runBatch apiFn st.batch) j = true →
          anyContains st.stored j = false := by
        intro j hj
        rw [contains_runBatch] at hj
        simp only [List.any_eq_true] at hj
        obtain ⟨p, hp, hpj⟩ := hj
        have hj2 : j = p.1 := by simpa using hpj
        subst hj2
        exact i3 p hp
      obtain ⟨u1, u2, u3, u4, u5⟩ :=
        updateLast_props st.stored (runBatch apiFn st.batch) out hout2 i1 i2
          hfresh
      refine ⟨u1, u2, ?_, ?_⟩
      · intro j v hv
        exact u3 j v (i4 j v hv)
      · intro g hagree
        have hcongr := CallNlpApi.batchLoop_congr apiFn g bs m pool stored df
          ⟨[], stored, 0, none⟩ hnofb hagree (fun _ h => h) (by simp)
        have hrb : runBatch g st.batch = runBatch apiFn st.batch := by
          refine runBatch_congr g apiFn st.batch ?_
          intro p hp
          refine (hagree p.1 p.2 ?_).symm
          by_contra hc
          have hc2 : anyContains stored p.1 = true := by simpa using hc
          have h3 := i3 p hp
          rw [i5 p.1 hc2] at h3
          exact absurd h3 (by simp)
        rw [CallNlpApi.call_nl_api, ← hcongr, hloop]
        show (match pool st.k with
            | PoolOutcome.ok => updateLast st.stored (runBatch g st.batch)
            | PoolOutcome.failedAfter _ => none
            | PoolOutcome.failedBefore => none) = some out
        rw [hpo]
        show updateLast st.stored (runBatch g st.batch) = some out
        rw [hrb]
        exact hout2
    · rw [hpo] at hout
      exact Option.noConfusion
        (show (none : Option (List (Shard β))) = some out from hout)
    · rw [hpo] at hout
      exact Option.noConfusion
        (show (none : Option (List (Shard β))) = some out from hout)

theorem call_nl_api_skip_and_separation_witness :
    storeSep ([[("b", "rb"), ("a", "r")]] : List (Shard String)) ∧
      (∀ s ∈ ([[("b", "rb"), ("a", "r")]] : List (Shard String)), keysNodup s) ∧
      (∀ i v, storeLookup ([[("b", "rb")]] : List (Shard String)) i = some v →
        storeLookup ([[("b", "rb"), ("a", "r")]] : List (Shard String)) i
          = some v) ∧
      (∀ g, (∀ i doc, anyContains ([[("b", "rb")]] : List (Shard String)) i
            = false → (fun _ _ => "r") i doc = g i doc) →
        CallNlpApi.call_nl_api [("a", "da"), ("b", "db")] [[("b", "rb")]] g 1 10
          (fun _ => PoolOutcome.ok) = some [[("b", "rb"), ("a", "r")]]) :=
  call_nl_api_skip_and_separation [("a", "da"), ("b", "db")] [[("b", "rb")]]
    (fun _ _ => "r") 1 10 (fun _ => PoolOutcome.ok) [[("b", "rb"), ("a", "r")]]
    (by decide) (fun _ h => PoolOutcome.noConfusion h) (by decide) (by decide)

/-- C8 counterexample: a worker-pool failure raised by `starmap` after
part of the batch was written to the rebound result dict is caught, but
lines 153-155 still run on that partially filled dict: record "a" of the
failed batch is merged into the store, so the update for the failed batch
is not skipped and its results are not dropped wholesale. -/
theorem call_nl_api_caught_failure_still_merges :
    CallNlpApi.call_nl_api [("a", "x"), ("b", "y")] [[]] (fun i _ => i ++ "!")
      2 10 (fun k => if k = 0 then PoolOutcome.failedAfter (fun j => j == "a")
        else PoolOutcome.ok) = some [[("a", "a!")]] ∧
    anyContains [[("a", "a!")]] "a" = true :=
  ⟨by decide, by decide⟩

/-- C8 (amended): an in-loop worker-pool failure after the result dict was
rebound is caught and the loop continues with the remaining rows from the
merged store; the merge of lines 153-155 still executes, on whatever part
of the failed batch the workers had written before the failure: every
already-stored binding survives, the only keys the store gains come from
the failed batch itself, and in the special case where the failure struck
before any worker wrote, the merge is a no-op and the loop continues from
the store exactly unchanged. -/
theorem batchLoop_caught_failure_containment {β : Type}
    (apiFn : String → String → β) (bs m : Nat) (pool : Nat → PoolOutcome)
    (keep : String → Bool) (i doc : String) (rest : List (String × String))
    (st : CallNlpApi.LoopState β) (last : Shard β)
    (hskip : anyContains st.stored i = false)
    (hfull : ¬ st.batch.length + 1 < bs)
    (hpool : pool st.k = PoolOutcome.failedAfter keep)
    (hsep : storeSep st.stored) (hnd : ∀ s ∈ st.stored, keysNodup s)
    (hbatch : ∀ p ∈ st.batch, anyContains st.stored p.1 = false)
    (hlast : st.stored.getLast? = some last) (hbound : last.length ≤ m) :
    ∃ stored2,
      mergeStep st.stored
        (runBatch apiFn ((st.batch ++ [(i, doc)]).filter (fun p => keep p.1)))
        m = some stored2 ∧
      CallNlpApi.batchLoop apiFn bs m pool ((i, doc) :: rest) st =
        CallNlpApi.batchLoop apiFn bs m pool rest ⟨[], stored2, st.k + 1,
          some (runBatch apiFn
            ((st.batch ++ [(i, doc)]).filter (fun p => keep p.1)))⟩ ∧
      (∀ j v, storeLookup st.stored j = some v →
        storeLookup stored2 j = some v) ∧
      (∀ j, anyContains stored2 j = (anyContains st.stored j ||
        shardContains (runBatch apiFn
          ((st.batch ++ [(i, doc)]).filter (fun p => keep p.1))) j)) ∧
      ((∀ p ∈ st.batch ++ [(i, doc)], keep p.1 = false) →
        stored2 = st.stored) := by
  have hne : st.stored ≠ [] := by
    intro hc
    rw [hc] at hlast
    simp at hlast
  obtain ⟨stored2, hms, _⟩ := CallNlpApi.mergeStep_nonempty st.stored
    (runBatch apiFn ((st.batch ++ [(i, doc)]).filter (fun p => keep p.1))) m
    hne
  have hbatchfresh : ∀ p ∈ st.batch ++ [(i, doc)],
      anyContains st.stored p.1 = false := by
    intro p hp
    rcases List.mem_append.1 hp with hp | hp
    · exact hbatch p hp
    · rw [List.mem_singleton] at hp
      subst hp
      exact hskip
  have hfresh : ∀ j, shardContains (runBatch apiFn
      ((st.batch ++ [(i, doc)]).filter (fun p => keep p.1))) j = true →
      anyContains st.stored j = false := by
    intro j hj
    rw [contains_runBatch] at hj
    simp only [List.any_eq_true] at hj
    obtain ⟨p, hp, hpj⟩ := hj
    have hj2 : j = p.1 := by simpa using hpj
    subst hj2
    exact hbatchfresh p (List.mem_filter.1 hp).1
  obtain ⟨c1, c2, c3, c4, c5⟩ :=
    mergeStep_props st.stored _ m stored2 hms hsep hnd hfresh
  refine ⟨stored2, hms, ?_, c3, c4, ?_⟩
  · simp only [CallNlpApi.batchLoop_cons_dispatch_failedAfter apiFn bs m pool
      keep i doc rest st hskip hfull hpool, hms]
  · intro hnone
    have hfilter : (st.batch ++ [(i, doc)]).filter (fun p => keep p.1) = [] :=
      filter_keep_false _ _ hnone
    rw [hfilter] at hms
    have hms2 : mergeStep st.stored [] m = some stored2 := hms
    simp only [mergeStep, hlast] at hms2
    rw [if_neg (by simp only [List.length_nil]; omega), updateLast, hlast]
      at hms2
    have hms3 : some (st.stored.dropLast ++ [dupdate last []])
        = some stored2 := hms2
    rw [dupdate_nil, dropLast_append_getLast_eq st.stored last hlast,
      Option.some_inj] at hms3
    exact hms3.symm

theorem batchLoop_caught_failure_containment_witness :
    ∃ stored2,
      mergeStep [([] : Shard String)] (runBatch (fun j _ => j ++ "!")
        (([("a", "x")] ++ [("b", "y")]).filter (fun p => p.1 == "a"))) 10
        = some stored2 ∧
      CallNlpApi.batchLoop (fun j _ => j ++ "!") 2 10
          (fun k => if k = 0 then PoolOutcome.failedAfter (fun j => j == "a")
            else PoolOutcome.ok) [("b", "y")]
          ⟨[("a", "x")], [[]], 0, none⟩ =
        CallNlpApi.batchLoop (fun j _ => j ++ "!") 2 10
          (fun k => if k = 0 then PoolOutcome.failedAfter (fun j => j == "a")
            else PoolOutcome.ok) []
          ⟨[], stored2, 0 + 1, some (runBatch (fun j _ => j ++ "!")
            (([("a", "x")] ++ [("b", "y")]).filter (fun p => p.1 == "a")))⟩ ∧
      (∀ j v, storeLookup [([] : Shard String)] j = some v →
        storeLookup stored2 j = some v) ∧
      (∀ j, anyContains stored2 j = (anyContains [([] : Shard String)] j ||
        shardContains (runBatch (fun j _ => j ++ "!")
          (([("a", "x")] ++ [("b", "y")]).filter (fun p => p.1 == "a"))) j)) ∧
      ((∀ p ∈ [("a", "x")] ++ [("b", "y")], (p.1 == "a") = false) →
        stored2 = [([] : Shard String)]) :=
  batchLoop_caught_failure_containment (fun j _ => j ++ "!") 2 10
    (fun k => if k = 0 then PoolOutcome.failedAfter (fun j => j == "a")
      else PoolOutcome.ok) (fun j => j == "a") "b" "y" []
    ⟨[("a", "x")], [[]], 0, none⟩ [] (by decide) (by decide) rfl (by decide)
    (by decide) (by decide) rfl (by decide)

/-- C10 counterexample: the claim also covers the `nlp_api.py` variant,
but there even a call on a non-empty shard list with every dispatch
succeeding never returns the shard list: the merge after the dispatch
reads the shared dict after its manager was shut down and raises. -/
theorem nlp_api_never_returns_store :
    NlpApi.call_nl_api [("a", "x")] [[("b", "rb")]] (fun _ _ => "r") 1 1
      (fun _ => PoolOutcome.ok) = none := rfl

/-- C10 (amended): both variants read `stored_results[-1]`
unconditionally, so on the empty shard list every call fails
(`IndexError`), whatever the table, the parameters and the pool
behaviour; the `nlp_api.py` variant returns on no input at all (its merge
reads the shared dict after the manager shut down); for `call_nlp_api.py`,
when every dispatch succeeds, a call on a non-empty shard list returns
the loop's (still non-empty) shard list with the drain batch's results
merged into its last shard. -/
theorem call_nl_api_nonempty_precondition {β : Type}
    (df : List (String × String)) (stored : List (Shard β))
    (apiFn : String → String → β) (bs m : Nat) (pool : Nat → PoolOutcome) :
    CallNlpApi.call_nl_api df ([] : List (Shard β)) apiFn bs m pool = none ∧
      NlpApi.call_nl_api df stored apiFn bs m pool = none ∧
      (stored ≠ [] → ∃ st' last,
        CallNlpApi.batchLoop apiFn bs m (fun _ => PoolOutcome.ok) df
          ⟨[], stored, 0, none⟩ = some st' ∧
        st'.stored.getLast? = some last ∧
        CallNlpApi.call_nl_api df stored apiFn bs m (fun _ => PoolOutcome.ok)
          = some (st'.stored.dropLast ++
            [dupdate last (runBatch apiFn st'.batch)]) ∧
        st'.stored.dropLast ++ [dupdate last (runBatch apiFn st'.batch)]
          ≠ []) := by
  refine ⟨?_, ?_, ?_⟩
  · rcases CallNlpApi.batchLoop_empty_store apiFn bs m pool df [] 0 none
        with h | ⟨b2, h⟩
    · rw [CallNlpApi.call_nl_api, h]
    · simp only [CallNlpApi.call_nl_api, h]
      rcases hpo : pool 0 with _ | keep | _ <;> simp [hpo, updateLast]
  · cases h : stored.getLast? <;> simp [NlpApi.call_nl_api, h]
  · intro hne
    obtain ⟨st', hrun, hne2⟩ :=
      CallNlpApi.batchLoop_total_nonempty apiFn bs m df ⟨[], stored, 0, none⟩
        hne
    rcases hlast : st'.stored.getLast? with _ | last
    · rw [List.getLast?_eq_none_iff] at hlast
      exact absurd hlast hne2
    · refine ⟨st', last, hrun, hlast, ?_, by simp⟩
      simp only [CallNlpApi.call_nl_api, hrun]
      rw [updateLast, hlast]

theorem call_nl_api_nonempty_precondition_witness :
    CallNlpApi.call_nl_api [("a", "x")] ([] : List (Shard String))
      (fun _ _ => "r") 1 1 (fun _ => PoolOutcome.ok) = none ∧
      NlpApi.call_nl_api [("a", "x")] [[("c", "rc")]] (fun _ _ => "r") 1 1
        (fun _ => PoolOutcome.ok) = none ∧
      (∃ st' last,
        CallNlpApi.batchLoop (fun _ _ => "r") 1 1 (fun _ => PoolOutcome.ok)
          [("a", "x")] ⟨[], [[("c", "rc")]], 0, none⟩ = some st' ∧
        st'.stored.getLast? = some last ∧
        CallNlpApi.call_nl_api [("a", "x")] [[("c", "rc")]] (fun _ _ => "r")
          1 1 (fun _ => PoolOutcome.ok)
          = some (st'.stored.dropLast ++
            [dupdate last (runBatch (fun _ _ => "r") st'.batch)]) ∧
        st'.stored.dropLast ++
          [dupdate last (runBatch (fun _ _ => "r") st'.batch)] ≠ []) :=
  ⟨(call_nl_api_nonempty_precondition [("a", "x")] [[("c", "rc")]]
      (fun _ _ => "r") 1 1 (fun _ => PoolOutcome.ok)).1,
    (call_nl_api_nonempty_precondition [("a", "x")] [[("c", "rc")]]
      (fun _ _ => "r") 1 1 (fun _ => PoolOutcome.ok)).2.1,
    (call_nl_api_nonempty_precondition [("a", "x")] [[("c", "rc")]]
      (fun _ _ => "r") 1 1 (fun _ => PoolOutcome.ok)).2.2 (by decide)⟩

/-!  ## Flattener lemmas -/

theorem jHas_obj (kvs : List (String × NLJson)) (k : String) :
    jHas (NLJson.obj kvs) k = some (kvs.lookup k).isSome := rfl

theorem jIndex_obj (kvs : List (String × NLJson)) (k : String) :
    jIndex (NLJson.obj kvs) k = kvs.lookup k := rfl

theorem iterElems_arr (xs : List NLJson) :
    iterElems (NLJson.arr xs) = some xs := rfl

theorem dinsert_self_of_lookup {β : Type} (d : Shard β) (k : String) (v : β)
    (h : d.lookup k = some v) : dinsert d k v = d := by
  induction d with
  | nil => simp [List.lookup] at h
  | cons p rest ih =>
    obtain ⟨a, b⟩ := p
    by_cases hp : a = k
    · subst hp
      have hb : b = v := by
        simpa [List.lookup] using h
      subst hb
      rw [dinsert, if_pos rfl]
    · have hka : (k == a) = false := by
        simp only [beq_eq_false_iff_ne, ne_eq]
        exact fun hc => hp hc.symm
      rw [List.lookup, hka] at h
      simp only [Bool.false_eq_true] at h
      rw [dinsert, if_neg hp, ih h]

theorem sentimentRow_isSome (r : NLJson) (h : sentimentResultOK r = true) :
    (sentimentRow r).isSome = true := by
  by_cases hr : r = langError
  · subst hr; simp [sentimentRow]
  · rw [sentimentResultOK] at h
    have hd : decide (r = langError) = false := by simp [hr]
    rw [hd, Bool.false_or] at h
    rcases hj : jIndex r "documentSentiment" with _ | j
    · rw [hj] at h; simp [isObjSome] at h
    · rw [hj] at h
      cases j with
      | obj kvs =>
        rcases hs : kvs.lookup "score" with _ | w <;>
          rcases hm : kvs.lookup "magnitude" with _ | w2 <;>
            (simp only [sentimentRow]
             rw [if_neg hr, hj]
             simp [jHas_obj, jIndex_obj, hs, hm, Option.bind])
      | str s => simp [isObjSome] at h
      | num q => simp [isObjSome] at h
      | arr xs => simp [isObjSome] at h

theorem sentimentRows_isSome (rows : List (String × NLJson))
    (h : ∀ p ∈ rows, sentimentResultOK p.2 = true) :
    (sentimentRows rows).isSome = true := by
  induction rows with
  | nil => rfl
  | cons p rest ih =>
    obtain ⟨i, r⟩ := p
    have h1 := sentimentRow_isSome r (h (i, r) (by simp))
    rw [Option.isSome_iff_exists] at h1
    obtain ⟨⟨sc, mg⟩, hv⟩ := h1
    have h2 := ih (fun q hq => h q (by simp [hq]))
    rw [Option.isSome_iff_exists] at h2
    obtain ⟨⟨ix, ss, ms⟩, hw⟩ := h2
    simp [sentimentRows, hv, hw]

theorem entityItem_isSome (e : NLJson) (h : entityItemOK e = true) :
    (entityItem e).isSome = true := by
  rw [entityItemOK, Bool.and_eq_true, Bool.and_eq_true] at h
  obtain ⟨⟨h1, h2⟩, h3⟩ := h
  rcases hsent : jIndex e "sentiment" with _ | j
  · rw [hsent] at h1; simp [isObjSome] at h1
  · rw [hsent] at h1
    cases j with
    | obj skvs =>
      rcases hn : jIndex e "name" with _ | n
      · rw [hn] at h2; simp at h2
      · rcases ht : jIndex e "type" with _ | t
        · rw [ht] at h3; simp at h3
        · rcases hs : skvs.lookup "score" with _ | w <;>
            rcases hm : skvs.lookup "magnitude" with _ | w2 <;>
              (simp only [entityItem]
               rw [hsent]
               simp [jHas_obj, jIndex_obj, hs, hm, hn, ht, Option.bind])
    | str s => simp [isObjSome] at h1
    | num q => simp [isObjSome] at h1
    | arr xs => simp [isObjSome] at h1

theorem entityFold_isSome (xs : List NLJson) (h : xs.all entityItemOK = true) :
    (entityFold xs).isSome = true := by
  induction xs with
  | nil => rfl
  | cons e es ih =>
    rw [List.all_cons, Bool.and_eq_true] at h
    have h1 := entityItem_isSome e h.1
    rw [Option.isSome_iff_exists] at h1
    obtain ⟨⟨n, t, sc, mg⟩, hv⟩ := h1
    have h2 := ih h.2
    rw [Option.isSome_iff_exists] at h2
    obtain ⟨⟨ns, ts, ss, ms⟩, hw⟩ := h2
    simp [entityFold, hv, hw]

theorem entityRow_isSome (r : NLJson) (h : entityResultOK r = true) :
    (entityRow r).isSome = true := by
  by_cases hr : r = langError
  · subst hr; simp [entityRow]
  · rw [entityResultOK] at h
    have hd : decide (r = langError) = false := by simp [hr]
    rw [hd, Bool.false_or, Bool.and_eq_true] at h
    obtain ⟨h1, h2⟩ := h
    cases r with
    | obj kvs =>
      rw [jIndex_obj] at h2
      rcases he : kvs.lookup "entities" with _ | ents
      · simp [entityRow, hr, jHas_obj, jIndex_obj, he]
      · rw [he] at h2
        cases ents with
        | arr xs =>
          have hf := entityFold_isSome xs (by simpa [entitiesOKOpt] using h2)
          rw [Option.isSome_iff_exists] at hf
          obtain ⟨⟨ns, ts, ss, ms⟩, hw⟩ := hf
          simp [entityRow, hr, jHas_obj, jIndex_obj, he, iterElems_arr, hw]
        | str s => simp [entitiesOKOpt] at h2
        | num q => simp [entitiesOKOpt] at h2
        | obj kvs2 => simp [entitiesOKOpt] at h2
    | str s => simp [isObjSome] at h1
    | num q => simp [isObjSome] at h1
    | arr xs => simp [isObjSome] at h1

theorem entityRows_isSome (rows : List (String × NLJson))
    (h : ∀ p ∈ rows, entityResultOK p.2 = true) :
    (entityRows rows).isSome = true := by
  induction rows with
  | nil => rfl
  | cons p rest ih =>
    obtain ⟨i, r⟩ := p
    have h1 := entityRow_isSome r (h (i, r) (by simp))
    rw [Option.isSome_iff_exists] at h1
    obtain ⟨⟨ns, ts, ss, ms⟩, hv⟩ := h1
    have h2 := ih (fun q hq => h q (by simp [hq]))
    rw [Option.isSome_iff_exists] at h2
    obtain ⟨⟨ix, nss, tss, sss, mss⟩, hw⟩ := h2
    simp [entityRows, hv, hw]

/-!  ## Dataframe lemmas -/

theorem bind_some_eq {α γ : Type} (a : α) (f : α → Option γ) :
    (some a >>= f) = f a := rfl

theorem sentimentRows_shape (rows : List (String × NLJson)) :
    ∀ ix ss ms, sentimentRows rows = some (ix, ss, ms) →
      ix = rows.map Prod.fst ∧ ss.length = rows.length ∧
        ms.length = rows.length := by
  induction rows with
  | nil =>
    intro ix ss ms h
    simp only [sentimentRows, Option.some_inj, Prod.mk.injEq] at h
    obtain ⟨h1, h2, h3⟩ := h
    subst h1
    subst h2
    subst h3
    simp
  | cons p rest ih =>
    intro ix ss ms h
    obtain ⟨i, r⟩ := p
    rcases hv : sentimentRow r with _ | v
    · simp [sentimentRows, hv] at h
    · obtain ⟨sc, mg⟩ := v
      rcases hw : sentimentRows rest with _ | w
      · simp [sentimentRows, hv, hw] at h
      · obtain ⟨ix0, ss0, ms0⟩ := w
        simp [sentimentRows, hv, hw, Prod.mk.injEq] at h
        obtain ⟨h1, h2, h3⟩ := h
        subst h1
        subst h2
        subst h3
        obtain ⟨g1, g2, g3⟩ := ih ix0 ss0 ms0 hw
        subst g1
        simp [g2, g3]

theorem entityRows_shape (rows : List (String × NLJson)) :
    ∀ ix ns ts ss ms, entityRows rows = some (ix, ns, ts, ss, ms) →
      ix = rows.map Prod.fst ∧ ns.length = rows.length ∧
        ts.length = rows.length ∧ ss.length = rows.length ∧
        ms.length = rows.length := by
  induction rows with
  | nil =>
    intro ix ns ts ss ms h
    simp only [entityRows, Option.some_inj, Prod.mk.injEq] at h
    obtain ⟨h1, h2, h3, h4, h5⟩ := h
    subst h1
    subst h2
    subst h3
    subst h4
    subst h5
    simp
  | cons p rest ih =>
    intro ix ns ts ss ms h
    obtain ⟨i, r⟩ := p
    rcases hv : entityRow r with _ | v
    · simp [entityRows, hv] at h
    · obtain ⟨n1, t1, s1, m1⟩ := v
      rcases hw : entityRows rest with _ | w
      · simp [entityRows, hv, hw] at h
      · obtain ⟨ix0, ns0, ts0, ss0, ms0⟩ := w
        simp [entityRows, hv, hw, Prod.mk.injEq] at h
        obtain ⟨h1, h2, h3, h4, h5⟩ := h
        subst h1
        subst h2
        subst h3
        subst h4
        subst h5
        obtain ⟨g1, g2, g3, g4, g5⟩ := ih ix0 ns0 ts0 ss0 ms0 hw
        subst g1
        simp [g2, g3, g4, g5]

/-- With the separation invariant and per-shard key uniqueness, the
flattened store's id column has no repeated label. -/
theorem flatten_keys_nodup {β : Type} (stored : List (Shard β))
    (hsep : storeSep stored) (hnd : ∀ s ∈ stored, keysNodup s) :
    (stored.flatten.map Prod.fst).Nodup := by
  induction stored with
  | nil => simp
  | cons s rest ih =>
    rw [storeSep, List.pairwise_cons] at hsep
    simp only [List.flatten_cons, List.map_append]
    refine List.Nodup.append
      (show (s.map Prod.fst).Nodup from hnd s (by simp))
      (ih hsep.2 (fun t ht => hnd t (by simp [ht]))) ?_
    intro k hks hkr
    obtain ⟨p, hps, hpk⟩ := List.mem_map.1 hks
    obtain ⟨q, hqf, hqk⟩ := List.mem_map.1 hkr
    obtain ⟨t, htrest, hqt⟩ := List.mem_flatten.1 hqf
    have hdisj := hsep.1 t htrest p hps
    have hct := contains_of_mem_pair t q hqt
    rw [hqk, ← hpk, hdisj] at hct
    exact absurd hct (by simp)

theorem alignSeries_of_labels (I : List String) (s : List (String × Cell))
    (hlab : s.map Prod.fst = I) :
    alignSeries I s = some (s.map Prod.snd) := by
  rw [alignSeries, if_pos hlab]

theorem setCol_cols_nonempty (df : DF) (n : String)
    (s : List (String × Cell)) (df2 : DF) (h : setCol df n s = some df2)
    (hne : df.index ≠ []) :
    ∃ col, alignSeries df.index s = some col ∧ df2.index = df.index ∧
      df2.cols = dinsert df.cols n col := by
  rw [setCol, if_neg hne] at h
  rcases ha : alignSeries df.index s with _ | col
  · rw [ha] at h
    exact absurd h (by simp)
  · rw [ha, Option.some_inj] at h
    subst h
    exact ⟨col, rfl, rfl, rfl⟩

theorem setCol_cols_nil (df : DF) (n : String) (s : List (String × Cell))
    (df2 : DF) (h : setCol df n s = some df2) (hidx : df.index = []) :
    df2.index = s.map Prod.fst ∧
      df2.cols = dinsert (df.cols.map
        (fun p => (p.1, s.map (fun _ => Cell.na)))) n (s.map Prod.snd) := by
  rw [setCol, if_pos hidx, Option.some_inj] at h
  subst h
  exact ⟨rfl, rfl⟩

theorem setCol_index (df : DF) (n : String) (s : List (String × Cell))
    (df2 : DF) (h : setCol df n s = some df2) :
    df2.index = if df.index = [] then s.map Prod.fst else df.index := by
  by_cases hidx : df.index = []
  · rw [if_pos hidx]
    exact (setCol_cols_nil df n s df2 h hidx).1
  · rw [if_neg hidx]
    obtain ⟨col, _, hi, _⟩ := setCol_cols_nonempty df n s df2 h hidx
    exact hi

/-- A series with no repeated label never makes the assignment raise. -/
theorem setCol_some_of_nodup (df : DF) (n : String)
    (s : List (String × Cell)) (hnd : (s.map Prod.fst).Nodup) :
    ∃ df2, setCol df n s = some df2 := by
  by_cases hidx : df.index = []
  · exact ⟨_, by rw [setCol, if_pos hidx]⟩
  · by_cases heq : s.map Prod.fst = df.index
    · exact ⟨⟨df.index, dinsert df.cols n (s.map Prod.snd)⟩,
        by rw [setCol, if_neg hidx, alignSeries, if_pos heq]⟩
    · exact ⟨⟨df.index, dinsert df.cols n
          (df.index.map (fun i => ((s.lookup i)).getD Cell.na))⟩,
        by rw [setCol, if_neg hidx, alignSeries, if_neg heq, if_pos hnd]⟩

/-- Re-assigning a column with a series that aligns to the very value the
column already holds leaves the frame unchanged. -/
theorem setCol_fix (d : DF) (n : String) (s : List (String × Cell))
    (col : List Cell) (hne : d.index ≠ [])
    (halign : alignSeries d.index s = some col)
    (hlook : d.cols.lookup n = some col) : setCol d n s = some d := by
  rw [setCol, if_neg hne, halign]
  show some (⟨d.index, dinsert d.cols n col⟩ : DF) = some d
  rw [dinsert_self_of_lookup d.cols n col hlook]

theorem setCol_nil_fix (d : DF) (n : String) (hidx : d.index = [])
    (hmap : d.cols.map (fun p => (p.1, ([] : List Cell))) = d.cols)
    (hlook : d.cols.lookup n = some []) :
    setCol d n ([] : List (String × Cell)) = some d := by
  rw [setCol, if_pos hidx]
  show some (⟨[], dinsert (d.cols.map (fun p => (p.1, ([] : List Cell)))) n
      []⟩ : DF) = some d
  rw [hmap, dinsert_self_of_lookup d.cols n [] hlook, ← hidx]

theorem mem_dinsert {β : Type} (d : Shard β) (k : String) (v : β)
    (p : String × β) (hp : p ∈ dinsert d k v) : p = (k, v) ∨ p ∈ d := by
  induction d with
  | nil => simpa [dinsert] using hp
  | cons q rest ih =>
    rw [dinsert] at hp
    by_cases hq : q.1 = k
    · rw [if_pos hq] at hp
      rcases List.mem_cons.1 hp with hp | hp
      · exact Or.inl hp
      · exact Or.inr (by simp [hp])
    · rw [if_neg hq] at hp
      rcases List.mem_cons.1 hp with hp | hp
      · exact Or.inr (by simp [hp])
      · rcases ih hp with h | h
        · exact Or.inl h
        · exact Or.inr (by simp [h])

theorem map_pair_nil_of_all (cs : List (String × List Cell))
    (h : ∀ p ∈ cs, p.2 = ([] : List Cell)) :
    cs.map (fun p => (p.1, ([] : List Cell))) = cs := by
  induction cs with
  | nil => rfl
  | cons p rest ih =>
    rw [List.map_cons, ih (fun q hq => h q (by simp [hq]))]
    have hp : p.2 = [] := h p (by simp)
    rw [← hp]

theorem lookup_map_pair_nil (cs : List (String × List Cell)) (k : String) :
    (cs.map (fun p => (p.1, ([] : List Cell)))).lookup k
      = (cs.lookup k).map (fun _ => ([] : List Cell)) := by
  induction cs with
  | nil => rfl
  | cons p rest ih =>
    obtain ⟨a, b⟩ := p
    simp only [List.map_cons]
    by_cases hk : (k == a) = true
    · simp [List.lookup, hk]
    · simp [List.lookup, hk, ih]

/-- C5 counterexample: the flatteners are not total.  A non-error result
without a `documentSentiment` object makes `add_sentiment_data` raise a
`KeyError` (`result["documentSentiment"]` is read before any guard), an
entity without a `sentiment` object makes `add_entity_data` raise
(`entity["sentiment"]` is unguarded), and a record id stored in two
shards gives the assigned series a repeated label, so the column
assignment itself raises `ValueError: cannot reindex from a duplicate
axis` even though every result is well-formed. -/
theorem flatteners_raise_on_missing_container :
    add_sentiment_data ⟨["1"], []⟩ [[("1", NLJson.obj [])]] = none ∧
    add_entity_data ⟨["1"], []⟩
      [[("1", NLJson.obj [("entities", NLJson.arr
        [NLJson.obj [("name", NLJson.str "x"),
          ("type", NLJson.str "T")]])])]] = none ∧
    add_sentiment_data ⟨["1"], []⟩
      [[("1", NLJson.obj [("documentSentiment", NLJson.obj [])])],
       [("1", NLJson.obj [("documentSentiment", NLJson.obj [])])]] = none :=
  ⟨by decide, by decide, by decide⟩

/-- C5 (amended): on a store that keeps every id in one shard only (with
well-formed per-shard dicts), the flatteners return normally for every
shard sequence whose non-error results carry their nested container
objects (a `documentSentiment` object; an `entities` list of entities
that carry `sentiment`, `name` and `type`); within those containers an
absent `score` or `magnitude` field defaults to 0, and an error-sentinel
record yields zero sentiment and empty entity lists.  Lacking the
container itself, or an id stored twice, raises instead (see the
counterexample). -/
theorem flatteners_total_with_defaults :
    ∀ (df : DF) (stored : List (Shard NLJson)),
      (storeSep stored → (∀ s ∈ stored, keysNodup s) →
        (∀ s ∈ stored, ∀ p ∈ s, sentimentResultOK p.2 = true) →
        (add_sentiment_data df stored).isSome = true) ∧
      (storeSep stored → (∀ s ∈ stored, keysNodup s) →
        (∀ s ∈ stored, ∀ p ∈ s, entityResultOK p.2 = true) →
        (add_entity_data df stored).isSome = true) ∧
      sentimentRow langError = some (NLJson.num 0, NLJson.num 0) ∧
      entityRow langError = some ([], [], [], []) ∧
      (∀ kvs, kvs.lookup "score" = none → kvs.lookup "magnitude" = none →
        sentimentRow (NLJson.obj [("documentSentiment", NLJson.obj kvs)]) =
          some (NLJson.num 0, NLJson.num 0)) ∧
      (∀ e skvs n t, jIndex e "sentiment" = some (NLJson.obj skvs) →
        skvs.lookup "score" = none → skvs.lookup "magnitude" = none →
        jIndex e "name" = some n → jIndex e "type" = some t →
        entityItem e = some (n, t, NLJson.num 0, NLJson.num 0)) := by
  intro df stored
  refine ⟨?_, ?_, rfl, rfl, ?_, ?_⟩
  · intro hsep hndk h
    have h2 : ∀ p ∈ stored.flatten, sentimentResultOK p.2 = true := by
      intro p hp
      obtain ⟨s, hs, hps⟩ := List.mem_flatten.1 hp
      exact h s hs p hps
    have h3 := sentimentRows_isSome stored.flatten h2
    rw [Option.isSome_iff_exists] at h3
    obtain ⟨⟨ix, ss, ms⟩, hval⟩ := h3
    obtain ⟨g1, g2, g3⟩ := sentimentRows_shape stored.flatten ix ss ms hval
    have hnodup : ix.Nodup := by
      rw [g1]
      exact flatten_keys_nodup stored hsep hndk
    have hlenix : ix.length = stored.flatten.length := by
      rw [g1, List.length_map]
    have hlab1 : (ix.zip (ss.map Cell.js)).map Prod.fst = ix :=
      List.map_fst_zip ix _ (le_of_eq (by rw [List.length_map, g2, hlenix]))
    have hlab2 : (ix.zip (ms.map Cell.js)).map Prod.fst = ix :=
      List.map_fst_zip ix _ (le_of_eq (by rw [List.length_map, g3, hlenix]))
    obtain ⟨df1, hdf1⟩ := setCol_some_of_nodup df "sentiment_score"
      (ix.zip (ss.map Cell.js)) (by rw [hlab1]; exact hnodup)
    obtain ⟨df2x, hdf2⟩ := setCol_some_of_nodup df1 "sentiment_magnitude"
      (ix.zip (ms.map Cell.js)) (by rw [hlab2]; exact hnodup)
    simp only [add_sentiment_data, hval]
    rw [hdf1, bind_some_eq, hdf2]
    rfl
  · intro hsep hndk h
    have h2 : ∀ p ∈ stored.flatten, entityResultOK p.2 = true := by
      intro p hp
      obtain ⟨s, hs, hps⟩ := List.mem_flatten.1 hp
      exact h s hs p hps
    have h3 := entityRows_isSome stored.flatten h2
    rw [Option.isSome_iff_exists] at h3
    obtain ⟨⟨ix, ns, ts, ss, ms⟩, hval⟩ := h3
    obtain ⟨g1, g2, g3, g4, g5⟩ := entityRows_shape stored.flatten ix ns ts ss
      ms hval
    have hnodup : ix.Nodup := by
      rw [g1]
      exact flatten_keys_nodup stored hsep hndk
    have hlenix : ix.length = stored.flatten.length := by
      rw [g1, List.length_map]
    have hlab1 : (ix.zip (ns.map Cell.jsList)).map Prod.fst = ix :=
      List.map_fst_zip ix _ (le_of_eq (by rw [List.length_map, g2, hlenix]))
    have hlab2 : (ix.zip (ts.map Cell.jsList)).map Prod.fst = ix :=
      List.map_fst_zip ix _ (le_of_eq (by rw [List.length_map, g3, hlenix]))
    have hlab3 : (ix.zip (ss.map Cell.jsList)).map Prod.fst = ix :=
      List.map_fst_zip ix _ (le_of_eq (by rw [List.length_map, g4, hlenix]))
    have hlab4 : (ix.zip (ms.map Cell.jsList)).map Prod.fst = ix :=
      List.map_fst_zip ix _ (le_of_eq (by rw [List.length_map, g5, hlenix]))
    obtain ⟨dfa, hdf1⟩ := setCol_some_of_nodup df "entities"
      (ix.zip (ns.map Cell.jsList)) (by rw [hlab1]; exact hnodup)
    obtain ⟨dfb, hdf2⟩ := setCol_some_of_nodup dfa "entity_types"
      (ix.zip (ts.map Cell.jsList)) (by rw [hlab2]; exact hnodup)
    obtain ⟨dfc, hdf3⟩ := setCol_some_of_nodup dfb "entity_sentiment_scores"
      (ix.zip (ss.map Cell.jsList)) (by rw [hlab3]; exact hnodup)
    obtain ⟨dfd, hdf4⟩ := setCol_some_of_nodup dfc
      "entity_sentiment_magnitudes" (ix.zip (ms.map Cell.jsList))
      (by rw [hlab4]; exact hnodup)
    simp only [add_entity_data, hval]
    rw [hdf1, bind_some_eq, hdf2, bind_some_eq, hdf3, bind_some_eq, hdf4]
    rfl
  · intro kvs hs hm
    simp only [sentimentRow]
    rw [if_neg (by simp [langError])]
    simp [jHas_obj, jIndex_obj, List.lookup, hs, hm, Option.bind]
  · intro e skvs n t hsent hs hm hn ht
    simp only [entityItem]
    rw [hsent]
    simp [jHas_obj, jIndex_obj, hs, hm, hn, ht, Option.bind]

theorem flatteners_total_with_defaults_witness :
    (add_sentiment_data ⟨["1"], []⟩
      [[("1", langError)],
       [("2", NLJson.obj [("documentSentiment", NLJson.obj []),
          ("entities", NLJson.arr [])])]]).isSome = true ∧
    (add_entity_data ⟨["1"], []⟩
      [[("1", langError)],
       [("2", NLJson.obj [("documentSentiment", NLJson.obj []),
          ("entities", NLJson.arr [])])]]).isSome = true ∧
    sentimentRow langError = some (NLJson.num 0, NLJson.num 0) ∧
    entityRow langError = some ([], [], [], []) ∧
    sentimentRow (NLJson.obj [("documentSentiment", NLJson.obj [])]) =
      some (NLJson.num 0, NLJson.num 0) ∧
    entityItem (NLJson.obj [("sentiment", NLJson.obj []),
        ("name", NLJson.str "x"), ("type", NLJson.str "T")]) =
      some (NLJson.str "x", NLJson.str "T", NLJson.num 0, NLJson.num 0) := by
  obtain ⟨w1, w2, w3, w4, w5, w6⟩ := flatteners_total_with_defaults ⟨["1"], []⟩
    [[("1", langError)],
     [("2", NLJson.obj [("documentSentiment", NLJson.obj []),
        ("entities", NLJson.arr [])])]]
  exact ⟨w1 (by decide) (by decide) (by decide),
    w2 (by decide) (by decide) (by decide), w3, w4,
    w5 [] rfl rfl, w6 _ [] _ _ rfl rfl rfl rfl rfl⟩

/-- C6 counterexample: the flatteners do mutate their input dataframe.
`df["sentiment_score"] = ...` (and the entity columns) assign columns on
the argument frame in place, and the returned frame is that same mutated
object, so the input table is not left unchanged. -/
theorem flatteners_mutate_input_frame :
    add_sentiment_data ⟨["1"], []⟩ [[("1", langError)]] ≠
      some ⟨["1"], []⟩ ∧
    add_entity_data ⟨["1"], []⟩ [[("1", langError)]] ≠
      some ⟨["1"], []⟩ :=
  ⟨by decide, by decide⟩

/-- C6 (amended): the shard sequence is only read (the source never
assigns into `stored_results`), but the input dataframe is mutated in
place; on a frame that has rows, the mutation is confined to the
flattener's own output columns — the row index and every other column are
unchanged — while on a zero-row frame the very first column assignment
replaces the frame's row index with the flattened store's id labels
(pandas adopts the assigned series' index), so there the claim's
"row index unchanged" part fails too. -/
theorem flatteners_frame :
    ∀ (df : DF) (stored : List (Shard NLJson)) (df2 : DF),
      (add_sentiment_data df stored = some df2 → df.index ≠ [] →
        df2.index = df.index ∧
        ∀ c, c ≠ "sentiment_score" → c ≠ "sentiment_magnitude" →
          df2.cols.lookup c = df.cols.lookup c) ∧
      (add_entity_data df stored = some df2 → df.index ≠ [] →
        df2.index = df.index ∧
        ∀ c, c ≠ "entities" → c ≠ "entity_types" →
          c ≠ "entity_sentiment_scores" →
          c ≠ "entity_sentiment_magnitudes" →
          df2.cols.lookup c = df.cols.lookup c) ∧
      (add_sentiment_data df stored = some df2 → df.index = [] →
        df2.index = stored.flatten.map Prod.fst) ∧
      (add_entity_data df stored = some df2 → df.index = [] →
        df2.index = stored.flatten.map Prod.fst) := by
  intro df stored df2
  refine ⟨?_, ?_, ?_, ?_⟩
  · intro h hne
    rcases hrows : sentimentRows stored.flatten with _ | val
    · rw [add_sentiment_data, hrows] at h
      exact absurd h (by simp)
    · obtain ⟨ix, ss, ms⟩ := val
      simp only [add_sentiment_data, hrows] at h
      rcases h1 : setCol df "sentiment_score" (ix.zip (ss.map Cell.js))
          with _ | df1
      · rw [h1] at h
        simp at h
      · rw [h1, bind_some_eq] at h
        obtain ⟨col1, halign1, hi1, hc1⟩ :=
          setCol_cols_nonempty df _ _ df1 h1 hne
        have hne1 : df1.index ≠ [] := by
          rw [hi1]
          exact hne
        obtain ⟨col2, halign2, hi2, hc2⟩ :=
          setCol_cols_nonempty df1 _ _ df2 h hne1
        refine ⟨by rw [hi2, hi1], ?_⟩
        intro c hcc1 hcc2
        rw [hc2, lookup_dinsert_ne _ _ _ _ hcc2, hc1,
          lookup_dinsert_ne _ _ _ _ hcc1]
  · intro h hne
    rcases hrows : entityRows stored.flatten with _ | val
    · rw [add_entity_data, hrows] at h
      exact absurd h (by simp)
    · obtain ⟨ix, ns, ts, ss, ms⟩ := val
      simp only [add_entity_data, hrows] at h
      rcases h1 : setCol df "entities" (ix.zip (ns.map Cell.jsList))
          with _ | dfa
      · rw [h1] at h
        simp at h
      · rw [h1, bind_some_eq] at h
        rcases h2 : setCol dfa "entity_types" (ix.zip (ts.map Cell.jsList))
            with _ | dfb
        · rw [h2] at h
          simp at h
        · rw [h2, bind_some_eq] at h
          rcases h3 : setCol dfb "entity_sentiment_scores"
              (ix.zip (ss.map Cell.jsList)) with _ | dfc
          · rw [h3] at h
            simp at h
          · rw [h3, bind_some_eq] at h
            obtain ⟨col1, halign1, hi1, hc1⟩ :=
              setCol_cols_nonempty df _ _ dfa h1 hne
            have hne1 : dfa.index ≠ [] := by
              rw [hi1]
              exact hne
            obtain ⟨col2, halign2, hi2, hc2⟩ :=
              setCol_cols_nonempty dfa _ _ dfb h2 hne1
            have hne2 : dfb.index ≠ [] := by
              rw [hi2]
              exact hne1
            obtain ⟨col3, halign3, hi3, hc3⟩ :=
              setCol_cols_nonempty dfb _ _ dfc h3 hne2
            have hne3 : dfc.index ≠ [] := by
              rw [hi3]
              exact hne2
            obtain ⟨col4, halign4, hi4, hc4⟩ :=
              setCol_cols_nonempty dfc _ _ df2 h hne3
            refine ⟨by rw [hi4, hi3, hi2, hi1], ?_⟩
            intro c hcc1 hcc2 hcc3 hcc4
            rw [hc4, lookup_dinsert_ne _ _ _ _ hcc4, hc3,
              lookup_dinsert_ne _ _ _ _ hcc3, hc2,
              lookup_dinsert_ne _ _ _ _ hcc2, hc1,
              lookup_dinsert_ne _ _ _ _ hcc1]
  · intro h hidx
    rcases hrows : sentimentRows stored.flatten with _ | val
    · rw [add_sentiment_data, hrows] at h
      exact absurd h (by simp)
    · obtain ⟨ix, ss, ms⟩ := val
      obtain ⟨g1, g2, g3⟩ := sentimentRows_shape stored.flatten ix ss ms hrows
      have hlenix : ix.length = stored.flatten.length := by
        rw [g1, List.length_map]
      have hlab1 : (ix.zip (ss.map Cell.js)).map Prod.fst = ix :=
        List.map_fst_zip ix _ (le_of_eq (by rw [List.length_map, g2, hlenix]))
      have hlab2 : (ix.zip (ms.map Cell.js)).map Prod.fst = ix :=
        List.map_fst_zip ix _ (le_of_eq (by rw [List.length_map, g3, hlenix]))
      simp only [add_sentiment_data, hrows] at h
      rcases h1 : setCol df "sentiment_score" (ix.zip (ss.map Cell.js))
          with _ | df1
      · rw [h1] at h
        simp at h
      · rw [h1, bind_some_eq] at h
        have hI1 : df1.index = ix := by
          rw [setCol_index df _ _ df1 h1, if_pos hidx, hlab1]
        have hI2 : df2.index = ix := by
          rw [setCol_index df1 _ _ df2 h, hI1]
          by_cases hix : ix = []
          · rw [if_pos hix, hlab2]
          · rw [if_neg hix]
        rw [hI2]
        exact g1
  · intro h hidx
    rcases hrows : entityRows stored.flatten with _ | val
    · rw [add_entity_data, hrows] at h
      exact absurd h (by simp)
    · obtain ⟨ix, ns, ts, ss, ms⟩ := val
      obtain ⟨g1, g2, g3, g4, g5⟩ := entityRows_shape stored.flatten ix ns ts
        ss ms hrows
      have hlenix : ix.length = stored.flatten.length := by
        rw [g1, List.length_map]
      have hlab1 : (ix.zip (ns.map Cell.jsList)).map Prod.fst = ix :=
        List.map_fst_zip ix _ (le_of_eq (by rw [List.length_map, g2, hlenix]))
      have hlab2 : (ix.zip (ts.map Cell.jsList)).map Prod.fst = ix :=
        List.map_fst_zip ix _ (le_of_eq (by rw [List.length_map, g3, hlenix]))
      have hlab3 : (ix.zip (ss.map Cell.jsList)).map Prod.fst = ix :=
        List.map_fst_zip ix _ (le_of_eq (by rw [List.length_map, g4, hlenix]))
      have hlab4 : (ix.zip (ms.map Cell.jsList)).map Prod.fst = ix :=
        List.map_fst_zip ix _ (le_of_eq (by rw [List.length_map, g5, hlenix]))
      simp only [add_entity_data, hrows] at h
      rcases h1 : setCol df "entities" (ix.zip (ns.map Cell.jsList))
          with _ | dfa
      · rw [h1] at h
        simp at h
      · rw [h1, bind_some_eq] at h
        rcases h2 : setCol dfa "entity_types" (ix.zip (ts.map Cell.jsList))
            with _ | dfb
        · rw [h2] at h
          simp at h
        · rw [h2, bind_some_eq] at h
          rcases h3 : setCol dfb "entity_sentiment_scores"
              (ix.zip (ss.map Cell.jsList)) with _ | dfc
          · rw [h3] at h
            simp at h
          · rw [h3, bind_some_eq] at h
            have hI1 : dfa.index = ix := by
              rw [setCol_index df _ _ dfa h1, if_pos hidx, hlab1]
            have hI2 : dfb.index = ix := by
              rw [setCol_index dfa _ _ dfb h2, hI1]
              by_cases hix : ix = []
              · rw [if_pos hix, hlab2]
              · rw [if_neg hix]
            have hI3 : dfc.index = ix := by
              rw [setCol_index dfb _ _ dfc h3, hI2]
              by_cases hix : ix = []
              · rw [if_pos hix, hlab3]
              · rw [if_neg hix]
            have hI4 : df2.index = ix := by
              rw [setCol_index dfc _ _ df2 h, hI3]
              by_cases hix : ix = []
              · rw [if_pos hix, hlab4]
              · rw [if_neg hix]
            rw [hI4]
            exact g1

theorem flatteners_frame_witness :
    (([("x", [Cell.na]), ("sentiment_score", [Cell.js (NLJson.num 0)]),
        ("sentiment_magnitude", [Cell.js (NLJson.num 0)])] :
        List (String × List Cell)).lookup "x" =
      ([("x", [Cell.na])] : List (String × List Cell)).lookup "x") ∧
    (([("x", [Cell.na]), ("entities", [Cell.jsList []]),
        ("entity_types", [Cell.jsList []]),
        ("entity_sentiment_scores", [Cell.jsList []]),
        ("entity_sentiment_magnitudes", [Cell.jsList []])] :
        List (String × List Cell)).lookup "x" =
      ([("x", [Cell.na])] : List (String × List Cell)).lookup "x") ∧
    ((⟨["1"], [("sentiment_score", [Cell.js (NLJson.num 0)]),
        ("sentiment_magnitude", [Cell.js (NLJson.num 0)])]⟩ : DF).index =
      ([[("1", langError)]] : List (Shard NLJson)).flatten.map Prod.fst) ∧
    ((⟨["1"], [("entities", [Cell.jsList []]),
        ("entity_types", [Cell.jsList []]),
        ("entity_sentiment_scores", [Cell.jsList []]),
        ("entity_sentiment_magnitudes", [Cell.jsList []])]⟩ : DF).index =
      ([[("1", langError)]] : List (Shard NLJson)).flatten.map Prod.fst) :=
  ⟨((flatteners_frame ⟨["1"], [("x", [Cell.na])]⟩ [[("1", langError)]]
      ⟨["1"], [("x", [Cell.na]), ("sentiment_score", [Cell.js (NLJson.num 0)]),
        ("sentiment_magnitude", [Cell.js (NLJson.num 0)])]⟩).1
      (by decide) (by decide)).2 "x" (by decide) (by decide),
    ((flatteners_frame ⟨["1"], [("x", [Cell.na])]⟩ [[("1", langError)]]
      ⟨["1"], [("x", [Cell.na]), ("entities", [Cell.jsList []]),
        ("entity_types", [Cell.jsList []]),
        ("entity_sentiment_scores", [Cell.jsList []]),
        ("entity_sentiment_magnitudes", [Cell.jsList []])]⟩).2.1
      (by decide) (by decide)).2 "x" (by decide) (by decide) (by decide)
      (by decide),
    (flatteners_frame ⟨[], []⟩ [[("1", langError)]]
      ⟨["1"], [("sentiment_score", [Cell.js (NLJson.num 0)]),
        ("sentiment_magnitude", [Cell.js (NLJson.num 0)])]⟩).2.2.1
      (by decide) rfl,
    (flatteners_frame ⟨[], []⟩ [[("1", langError)]]
      ⟨["1"], [("entities", [Cell.jsList []]),
        ("entity_types", [Cell.jsList []]),
        ("entity_sentiment_scores", [Cell.jsList []]),
        ("entity_sentiment_magnitudes", [Cell.jsList []])]⟩).2.2.2
      (by decide) rfl⟩

/-- C7: running a flattener twice with the same shard sequence is the
same as running it once — the columns it assigns are computed from the
shard sequence and the frame's row index alone; after the first run that
index is fixed (either the original one or, on a zero-row frame, the
adopted label list, which the second run's assignments reproduce), so the
second run overwrites the columns with identical values. -/
theorem flatteners_idempotent :
    ∀ (df : DF) (stored : List (Shard NLJson)) (df2 : DF),
      (add_sentiment_data df stored = some df2 →
        add_sentiment_data df2 stored = some df2) ∧
      (add_entity_data df stored = some df2 →
        add_entity_data df2 stored = some df2) := by
  intro df stored df2
  constructor
  · intro h
    rcases hrows : sentimentRows stored.flatten with _ | val
    · rw [add_sentiment_data, hrows] at h
      exact absurd h (by simp)
    · obtain ⟨ix, ss, ms⟩ := val
      obtain ⟨g1, g2, g3⟩ := sentimentRows_shape stored.flatten ix ss ms hrows
      have hlenix : ix.length = stored.flatten.length := by
        rw [g1, List.length_map]
      have hlab1 : (ix.zip (ss.map Cell.js)).map Prod.fst = ix :=
        List.map_fst_zip ix _ (le_of_eq (by rw [List.length_map, g2, hlenix]))
      have hlab2 : (ix.zip (ms.map Cell.js)).map Prod.fst = ix :=
        List.map_fst_zip ix _ (le_of_eq (by rw [List.length_map, g3, hlenix]))
      simp only [add_sentiment_data, hrows] at h ⊢
      rcases h1 : setCol df "sentiment_score" (ix.zip (ss.map Cell.js))
          with _ | df1
      · rw [h1] at h
        simp at h
      · rw [h1, bind_some_eq] at h
        by_cases hidx : df.index = []
        · obtain ⟨hi1, hc1⟩ := setCol_cols_nil df _ _ df1 h1 hidx
          by_cases hix : ix = []
          · subst hix
            have hi1b : df1.index = [] := hi1
            have hc1b : df1.cols = dinsert (df.cols.map
                (fun p => (p.1, ([] : List Cell)))) "sentiment_score" []
                := hc1
            obtain ⟨hi2, hc2⟩ := setCol_cols_nil df1 _ _ df2 h hi1b
            have hi2b : df2.index = [] := hi2
            have hc2b : df2.cols = dinsert (df1.cols.map
                (fun p => (p.1, ([] : List Cell)))) "sentiment_magnitude" []
                := hc2
            have hall : ∀ p ∈ df2.cols, p.2 = ([] : List Cell) := by
              intro p hp
              rw [hc2b] at hp
              rcases mem_dinsert _ _ _ p hp with hp | hp
              · rw [hp]
              · obtain ⟨q, hq, hqp⟩ := List.mem_map.1 hp
                rw [← hqp]
            have hmap2 : df2.cols.map (fun p => (p.1, ([] : List Cell)))
                = df2.cols := map_pair_nil_of_all df2.cols hall
            have hlk1 : df2.cols.lookup "sentiment_score"
                = some ([] : List Cell) := by
              rw [hc2b, lookup_dinsert_ne _ _ _ _ (by decide),
                lookup_map_pair_nil, hc1b, lookup_dinsert_self]
              rfl
            have hlk2 : df2.cols.lookup "sentiment_magnitude"
                = some ([] : List Cell) := by
              rw [hc2b, lookup_dinsert_self]
            have hz1 : (([] : List String).zip (ss.map Cell.js))
                = ([] : List (String × Cell)) := rfl
            have hz2 : (([] : List String).zip (ms.map Cell.js))
                = ([] : List (String × Cell)) := rfl
            rw [hz1, hz2,
              setCol_nil_fix df2 "sentiment_score" hi2b hmap2 hlk1,
              bind_some_eq]
            exact setCol_nil_fix df2 "sentiment_magnitude" hi2b hmap2 hlk2
          · have hI1 : df1.index = ix := by
              rw [hi1, hlab1]
            have hne1 : df1.index ≠ [] := by
              rw [hI1]
              exact hix
            obtain ⟨col2, halign2, hi2, hc2⟩ :=
              setCol_cols_nonempty df1 _ _ df2 h hne1
            have hI2 : df2.index = ix := by
              rw [hi2, hI1]
            have hne2 : df2.index ≠ [] := by
              rw [hI2]
              exact hix
            rw [hI1] at halign2
            have hlk1 : df2.cols.lookup "sentiment_score"
                = some ((ix.zip (ss.map Cell.js)).map Prod.snd) := by
              rw [hc2, lookup_dinsert_ne _ _ _ _ (by decide), hc1,
                lookup_dinsert_self]
            have hlk2 : df2.cols.lookup "sentiment_magnitude" = some col2 := by
              rw [hc2, lookup_dinsert_self]
            have ha1 : alignSeries df2.index (ix.zip (ss.map Cell.js))
                = some ((ix.zip (ss.map Cell.js)).map Prod.snd) := by
              rw [hI2]
              exact alignSeries_of_labels ix _ hlab1
            have ha2 : alignSeries df2.index (ix.zip (ms.map Cell.js))
                = some col2 := by
              rw [hI2]
              exact halign2
            rw [setCol_fix df2 "sentiment_score" _ _ hne2 ha1 hlk1,
              bind_some_eq]
            exact setCol_fix df2 "sentiment_magnitude" _ _ hne2 ha2 hlk2
        · obtain ⟨col1, halign1, hi1, hc1⟩ :=
            setCol_cols_nonempty df _ _ df1 h1 hidx
          have hne1 : df1.index ≠ [] := by
            rw [hi1]
            exact hidx
          obtain ⟨col2, halign2, hi2, hc2⟩ :=
            setCol_cols_nonempty df1 _ _ df2 h hne1
          have hI2 : df2.index = df.index := by
            rw [hi2, hi1]
          have hne2 : df2.index ≠ [] := by
            rw [hI2]
            exact hidx
          rw [hi1] at halign2
          have hlk1 : df2.cols.lookup "sentiment_score" = some col1 := by
            rw [hc2, lookup_dinsert_ne _ _ _ _ (by decide), hc1,
              lookup_dinsert_self]
          have hlk2 : df2.cols.lookup "sentiment_magnitude" = some col2 := by
            rw [hc2, lookup_dinsert_self]
          have ha1 : alignSeries df2.index (ix.zip (ss.map Cell.js))
              = some col1 := by
            rw [hI2]
            exact halign1
          have ha2 : alignSeries df2.index (ix.zip (ms.map Cell.js))
              = some col2 := by
            rw [hI2]
            exact halign2
          rw [setCol_fix df2 "sentiment_score" _ _ hne2 ha1 hlk1,
            bind_some_eq]
          exact setCol_fix df2 "sentiment_magnitude" _ _ hne2 ha2 hlk2
  · intro h
    rcases hrows : entityRows stored.flatten with _ | val
    · rw [add_entity_data, hrows] at h
      exact absurd h (by simp)
    · obtain ⟨ix, ns, ts, ss, ms⟩ := val
      obtain ⟨g1, g2, g3, g4, g5⟩ := entityRows_shape stored.flatten ix ns ts
        ss ms hrows
      have hlenix : ix.length = stored.flatten.length := by
        rw [g1, List.length_map]
      have hlab1 : (ix.zip (ns.map Cell.jsList)).map Prod.fst = ix :=
        List.map_fst_zip ix _ (le_of_eq (by rw [List.length_map, g2, hlenix]))
      have hlab2 : (ix.zip (ts.map Cell.jsList)).map Prod.fst = ix :=
        List.map_fst_zip ix _ (le_of_eq (by rw [List.length_map, g3, hlenix]))
      have hlab3 : (ix.zip (ss.map Cell.jsList)).map Prod.fst = ix :=
        List.map_fst_zip ix _ (le_of_eq (by rw [List.length_map, g4, hlenix]))
      have hlab4 : (ix.zip (ms.map Cell.jsList)).map Prod.fst = ix :=
        List.map_fst_zip ix _ (le_of_eq (by rw [List.length_map, g5, hlenix]))
      simp only [add_entity_data, hrows] at h ⊢
      rcases h1 : setCol df "entities" (ix.zip (ns.map Cell.jsList))
          with _ | dfa
      · rw [h1] at h
        simp at h
      · rw [h1, bind_some_eq] at h
        rcases h2 : setCol dfa "entity_types" (ix.zip (ts.map Cell.jsList))
            with _ | dfb
        · rw [h2] at h
          simp at h
        · rw [h2, bind_some_eq] at h
          rcases h3 : setCol dfb "entity_sentiment_scores"
              (ix.zip (ss.map Cell.jsList)) with _ | dfc
          · rw [h3] at h
            simp at h
          · rw [h3, bind_some_eq] at h
            by_cases hidx : df.index = []
            · obtain ⟨hi1, hc1⟩ := setCol_cols_nil df _ _ dfa h1 hidx
              by_cases hix : ix = []
              · subst hix
                have hi1b : dfa.index = [] := hi1
                have hc1b : dfa.cols = dinsert (df.cols.map
                    (fun p => (p.1, ([] : List Cell)))) "entities" [] := hc1
                obtain ⟨hi2, hc2⟩ := setCol_cols_nil dfa _ _ dfb h2 hi1b
                have hi2b : dfb.index = [] := hi2
                have hc2b : dfb.cols = dinsert (dfa.cols.map
                    (fun p => (p.1, ([] : List Cell)))) "entity_types" []
                    := hc2
                obtain ⟨hi3, hc3⟩ := setCol_cols_nil dfb _ _ dfc h3 hi2b
                have hi3b : dfc.index = [] := hi3
                have hc3b : dfc.cols = dinsert (dfb.cols.map
                    (fun p => (p.1, ([] : List Cell))))
                    "entity_sentiment_scores" [] := hc3
                obtain ⟨hi4, hc4⟩ := setCol_cols_nil dfc _ _ df2 h hi3b
                have hi4b : df2.index = [] := hi4
                have hc4b : df2.cols = dinsert (dfc.cols.map
                    (fun p => (p.1, ([] : List Cell))))
                    "entity_sentiment_magnitudes" [] := hc4
                have hall : ∀ p ∈ df2.cols, p.2 = ([] : List Cell) := by
                  intro p hp
                  rw [hc4b] at hp
                  rcases mem_dinsert _ _ _ p hp with hp | hp
                  · rw [hp]
                  · obtain ⟨q, hq, hqp⟩ := List.mem_map.1 hp
                    rw [← hqp]
                have hmap4 : df2.cols.map (fun p => (p.1, ([] : List Cell)))
                    = df2.cols := map_pair_nil_of_all df2.cols hall
                have hlk1 : df2.cols.lookup "entities"
                    = some ([] : List Cell) := by
                  rw [hc4b, lookup_dinsert_ne _ _ _ _ (by decide),
                    lookup_map_pair_nil, hc3b,
                    lookup_dinsert_ne _ _ _ _ (by decide),
                    lookup_map_pair_nil, hc2b,
                    lookup_dinsert_ne _ _ _ _ (by decide),
                    lookup_map_pair_nil, hc1b, lookup_dinsert_self]
                  rfl
                have hlk2 : df2.cols.lookup "entity_types"
                    = some ([] : List Cell) := by
                  rw [hc4b, lookup_dinsert_ne _ _ _ _ (by decide),
                    lookup_map_pair_nil, hc3b,
                    lookup_dinsert_ne _ _ _ _ (by decide),
                    lookup_map_pair_nil, hc2b, lookup_dinsert_self]
                  rfl
                have hlk3 : df2.cols.lookup "entity_sentiment_scores"
                    = some ([] : List Cell) := by
                  rw [hc4b, lookup_dinsert_ne _ _ _ _ (by decide),
                    lookup_map_pair_nil, hc3b, lookup_dinsert_self]
                  rfl
                have hlk4 : df2.cols.lookup "entity_sentiment_magnitudes"
                    = some ([] : List Cell) := by
                  rw [hc4b, lookup_dinsert_self]
                have hz1 : (([] : List String).zip (ns.map Cell.jsList))
                    = ([] : List (String × Cell)) := rfl
                have hz2 : (([] : List String).zip (ts.map Cell.jsList))
                    = ([] : List (String × Cell)) := rfl
                have hz3 : (([] : List String).zip (ss.map Cell.jsList))
                    = ([] : List (String × Cell)) := rfl
                have hz4 : (([] : List String).zip (ms.map Cell.jsList))
                    = ([] : List (String × Cell)) := rfl
                rw [hz1, hz2, hz3, hz4,
                  setCol_nil_fix df2 "entities" hi4b hmap4 hlk1, bind_some_eq,
                  setCol_nil_fix df2 "entity_types" hi4b hmap4 hlk2,
                  bind_some_eq,
                  setCol_nil_fix df2 "entity_sentiment_scores" hi4b hmap4
                    hlk3, bind_some_eq]
                exact setCol_nil_fix df2 "entity_sentiment_magnitudes" hi4b
                  hmap4 hlk4
              · have hI1 : dfa.index = ix := by
                  rw [hi1, hlab1]
                have hne1 : dfa.index ≠ [] := by
                  rw [hI1]
                  exact hix
                obtain ⟨col2, halign2, hi2, hc2⟩ :=
                  setCol_cols_nonempty dfa _ _ dfb h2 hne1
                have hI2 : dfb.index = ix := by
                  rw [hi2, hI1]
                have hne2 : dfb.index ≠ [] := by
                  rw [hI2]
                  exact hix
                obtain ⟨col3, halign3, hi3, hc3⟩ :=
                  setCol_cols_nonempty dfb _ _ dfc h3 hne2
                have hI3 : dfc.index = ix := by
                  rw [hi3, hI2]
                have hne3 : dfc.index ≠ [] := by
                  rw [hI3]
                  exact hix
                obtain ⟨col4, halign4, hi4, hc4⟩ :=
                  setCol_cols_nonempty dfc _ _ df2 h hne3
                have hI4 : df2.index = ix := by
                  rw [hi4, hI3]
                have hne4 : df2.index ≠ [] := by
                  rw [hI4]
                  exact hix
                rw [hI1] at halign2
                rw [hI2] at halign3
                rw [hI3] at halign4
                have hlk1 : df2.cols.lookup "entities"
                    = some ((ix.zip (ns.map Cell.jsList)).map Prod.snd) := by
                  rw [hc4, lookup_dinsert_ne _ _ _ _ (by decide), hc3,
                    lookup_dinsert_ne _ _ _ _ (by decide), hc2,
                    lookup_dinsert_ne _ _ _ _ (by decide), hc1,
                    lookup_dinsert_self]
                have hlk2 : df2.cols.lookup "entity_types" = some col2 := by
                  rw [hc4, lookup_dinsert_ne _ _ _ _ (by decide), hc3,
                    lookup_dinsert_ne _ _ _ _ (by decide), hc2,
                    lookup_dinsert_self]
                have hlk3 : df2.cols.lookup "entity_sentiment_scores"
                    = some col3 := by
                  rw [hc4, lookup_dinsert_ne _ _ _ _ (by decide), hc3,
                    lookup_dinsert_self]
                have hlk4 : df2.cols.lookup "entity_sentiment_magnitudes"
                    = some col4 := by
                  rw [hc4, lookup_dinsert_self]
                have ha1 : alignSeries df2.index (ix.zip (ns.map Cell.jsList))
                    = some ((ix.zip (ns.map Cell.jsList)).map Prod.snd) := by
                  rw [hI4]
                  exact alignSeries_of_labels ix _ hlab1
                have ha2 : alignSeries df2.index (ix.zip (ts.map Cell.jsList))
                    = some col2 := by
                  rw [hI4]
                  exact halign2
                have ha3 : alignSeries df2.index (ix.zip (ss.map Cell.jsList))
                    = some col3 := by
                  rw [hI4]
                  exact halign3
                have ha4 : alignSeries df2.index (ix.zip (ms.map Cell.jsList))
                    = some col4 := by
                  rw [hI4]
                  exact halign4
                rw [setCol_fix df2 "entities" _ _ hne4 ha1 hlk1, bind_some_eq,
                  setCol_fix df2 "entity_types" _ _ hne4 ha2 hlk2,
                  bind_some_eq,
                  setCol_fix df2 "entity_sentiment_scores" _ _ hne4 ha3 hlk3,
                  bind_some_eq]
                exact setCol_fix df2 "entity_sentiment_magnitudes" _ _ hne4
                  ha4 hlk4
            · obtain ⟨col1, halign1, hi1, hc1⟩ :=
                setCol_cols_nonempty df _ _ dfa h1 hidx
              have hne1 : dfa.index ≠ [] := by
                rw [hi1]
                exact hidx
              obtain ⟨col2, halign2, hi2, hc2⟩ :=
                setCol_cols_nonempty dfa _ _ dfb h2 hne1
              have hne2 : dfb.index ≠ [] := by
                rw [hi2]
                exact hne1
              obtain ⟨col3, halign3, hi3, hc3⟩ :=
                setCol_cols_nonempty dfb _ _ dfc h3 hne2
              have hne3 : dfc.index ≠ [] := by
                rw [hi3]
                exact hne2
              obtain ⟨col4, halign4, hi4, hc4⟩ :=
                setCol_cols_nonempty dfc _ _ df2 h hne3
              have hI4 : df2.index = df.index := by
                rw [hi4, hi3, hi2, hi1]
              have hne4 : df2.index ≠ [] := by
                rw [hI4]
                exact hidx
              rw [hi1] at halign2
              rw [hi2, hi1] at halign3
              rw [hi3, hi2, hi1] at halign4
              have hlk1 : df2.cols.lookup "entities" = some col1 := by
                rw [hc4, lookup_dinsert_ne _ _ _ _ (by decide), hc3,
                  lookup_dinsert_ne _ _ _ _ (by decide), hc2,
                  lookup_dinsert_ne _ _ _ _ (by decide), hc1,
                  lookup_dinsert_self]
              have hlk2 : df2.cols.lookup "entity_types" = some col2 := by
                rw [hc4, lookup_dinsert_ne _ _ _ _ (by decide), hc3,
                  lookup_dinsert_ne _ _ _ _ (by decide), hc2,
                  lookup_dinsert_self]
              have hlk3 : df2.cols.lookup "entity_sentiment_scores"
                  = some col3 := by
                rw [hc4, lookup_dinsert_ne _ _ _ _ (by decide), hc3,
                  lookup_dinsert_self]
              have hlk4 : df2.cols.lookup "entity_sentiment_magnitudes"
                  = some col4 := by
                rw [hc4, lookup_dinsert_self]
              have ha1 : alignSeries df2.index (ix.zip (ns.map Cell.jsList))
                  = some col1 := by
                rw [hI4]
                exact halign1
              have ha2 : alignSeries df2.index (ix.zip (ts.map Cell.jsList))
                  = some col2 := by
                rw [hI4]
                exact halign2
              have ha3 : alignSeries df2.index (ix.zip (ss.map Cell.jsList))
                  = some col3 := by
                rw [hI4]
                exact halign3
              have ha4 : alignSeries df2.index (ix.zip (ms.map Cell.jsList))
                  = some col4 := by
                rw [hI4]
                exact halign4
              rw [setCol_fix df2 "entities" _ _ hne4 ha1 hlk1, bind_some_eq,
                setCol_fix df2 "entity_types" _ _ hne4 ha2 hlk2, bind_some_eq,
                setCol_fix df2 "entity_sentiment_scores" _ _ hne4 ha3 hlk3,
                bind_some_eq]
              exact setCol_fix df2 "entity_sentiment_magnitudes" _ _ hne4 ha4
                hlk4

theorem flatteners_idempotent_witness :
    add_sentiment_data
      ⟨["1"], [("x", [Cell.na]), ("sentiment_score", [Cell.js (NLJson.num 0)]),
        ("sentiment_magnitude", [Cell.js (NLJson.num 0)])]⟩
      [[("1", langError)]] =
      some ⟨["1"], [("x", [Cell.na]),
        ("sentiment_score", [Cell.js (NLJson.num 0)]),
        ("sentiment_magnitude", [Cell.js (NLJson.num 0)])]⟩ ∧
    add_entity_data
      ⟨["1"], [("x", [Cell.na]), ("entities", [Cell.jsList []]),
        ("entity_types", [Cell.jsList []]),
        ("entity_sentiment_scores", [Cell.jsList []]),
        ("entity_sentiment_magnitudes", [Cell.jsList []])]⟩
      [[("1", langError)]] =
      some ⟨["1"], [("x", [Cell.na]), ("entities", [Cell.jsList []]),
        ("entity_types", [Cell.jsList []]),
        ("entity_sentiment_scores", [Cell.jsList []]),
        ("entity_sentiment_magnitudes", [Cell.jsList []])]⟩ :=
  ⟨(flatteners_idempotent ⟨["1"], [("x", [Cell.na])]⟩ [[("1", langError)]]
      ⟨["1"], [("x", [Cell.na]), ("sentiment_score", [Cell.js (NLJson.num 0)]),
        ("sentiment_magnitude", [Cell.js (NLJson.num 0)])]⟩).1 (by decide),
    (flatteners_idempotent ⟨["1"], [("x", [Cell.na])]⟩ [[("1", langError)]]
      ⟨["1"], [("x", [Cell.na]), ("entities", [Cell.jsList []]),
        ("entity_types", [Cell.jsList []]),
        ("entity_sentiment_scores", [Cell.jsList []]),
        ("entity_sentiment_magnitudes", [Cell.jsList []])]⟩).2 (by decide)⟩
